import Mathlib

/-!
# Verification of the UltraCompressPro adaptive compression core

A shallow embedding of the algorithmic core of the UltraCompressPro image
compression library (two embedded versions, v4.0.0 and v3.0.0): the image
analyzer, the preprocessing stages, the binary-search compression controller
with its multi-scale fallback, and the per-preset version loop.

Pixels carry exact natural-number channel values; all fractional arithmetic
from the source is carried out in `ℚ` (the source's numeric literals are exact
decimals), except where the source computes a square root, an exponential or a
Gaussian weight, which live in `ℝ`.  External primitives (the encoder, canvas
scaling, DOM canvases) are universally quantified parameters.
-/

namespace UltraCompress

/-- One RGBA sample of a pixel buffer (a `Uint8ClampedArray` slot group);
channels are natural numbers, `0..255` in any buffer produced by the code. -/
structure Pixel where
  r : ℕ
  g : ℕ
  b : ℕ
  a : ℕ
deriving DecidableEq, Repr

/-- The image-type classification produced by `ImageAnalyzer.analyze`. -/
inductive ImageType where
  | photo
  | graphic
  | simple
  | complex
deriving DecidableEq, Repr

/-- The `r,g,b` color key used by the analyzer's color-frequency map
(part_000 line 200). -/
def colorKey (p : Pixel) : ℕ × ℕ × ℕ :=
  (p.r, p.g, p.b)

/-- `metrics.colorFrequency.size`: the number of distinct `(r,g,b)` triples in
the probe (part_000 lines 200–204, 225). -/
def uniqueColors (pixels : List Pixel) : ℕ :=
  ((pixels.map colorKey).dedup).length

/-- The summed absolute channel difference between a pixel and its predecessor
in scan order (part_000 lines 209–212). -/
def channelDiff (prev cur : Pixel) : ℕ :=
  ((cur.r : ℤ) - (prev.r : ℤ)).natAbs + ((cur.g : ℤ) - (prev.g : ℤ)).natAbs +
    ((cur.b : ℤ) - (prev.b : ℤ)).natAbs

/-- `metrics.edges`: the number of scan-order neighbor pairs whose summed
absolute channel difference exceeds 30 (part_000 lines 208–215). -/
def edgeCount (pixels : List Pixel) : ℕ :=
  (pixels.zip pixels.tail).countP fun pc => 30 < channelDiff pc.1 pc.2

/-- `complexity = (metrics.edges / totalPixels) * 100` (part_000 line 226). -/
def complexity (pixels : List Pixel) : ℚ :=
  ((edgeCount pixels : ℚ) / (pixels.length : ℚ)) * 100

/-- The v4.0.0 image-type classification (part_000 lines 230–237):
`photo` unless `uniqueColors < 256` (then `graphic`), else `complexity < 5`
(then `simple`), else `complexity > 20` (then `complex`). -/
def classifyImageType (uc : ℕ) (cx : ℚ) : ImageType :=
  if uc < 256 then ImageType.graphic
  else if cx < 5 then ImageType.simple
  else if cx > 20 then ImageType.complex
  else ImageType.photo

/-- The `imageType` field computed by `ImageAnalyzer.analyze` from the probe's
pixels (part_000 lines 225–237). -/
def analyzeImageType (pixels : List Pixel) : ImageType :=
  classifyImageType (uniqueColors pixels) (complexity pixels)

/-- v4.0.0 `ImageAnalyzer.calculateRecommendedQuality`
(part_000 lines 274–279). -/
def calculateRecommendedQuality (cx : ℚ) (imageType : ImageType)
    (hasTransparency : Bool) : ℚ :=
  if imageType = ImageType.graphic ∨ imageType = ImageType.simple then 0.65
  else if hasTransparency ∧ cx < 10 then 0.7
  else if cx > 20 then 0.48
  else 0.58

/-- v4.0.0 `ImageAnalyzer.calculateCompressibility`
(part_000 lines 281–289). -/
def calculateCompressibility (uc : ℕ) (cx : ℚ) : ℕ :=
  let score : ℕ := 50
  let score := score + (if uc < 256 then 30 else if uc < 1000 then 20
    else if uc < 5000 then 10 else 0)
  let score := score + (if cx < 5 then 20 else if cx < 10 then 10 else 0)
  min 100 score

namespace V3

/-- The v3.0.0 image-type classification (part_000 lines 1916–1923). -/
def classifyImageType (uc : ℕ) (cx : ℚ) : ImageType :=
  if uc < 256 then ImageType.graphic
  else if cx < 5 then ImageType.simple
  else if cx > 20 then ImageType.complex
  else ImageType.photo

/-- v3.0.0 `ImageAnalyzer.calculateRecommendedQuality`
(part_000 lines 1967–1972). -/
def calculateRecommendedQuality (cx : ℚ) (imageType : ImageType)
    (hasTransparency : Bool) : ℚ :=
  if imageType = ImageType.graphic ∨ imageType = ImageType.simple then 0.85
  else if hasTransparency ∧ cx < 10 then 0.88
  else if cx > 20 then 0.75
  else 0.8

/-- v3.0.0 `ImageAnalyzer.calculateCompressibility`
(part_000 lines 1974–1984). -/
def calculateCompressibility (uc : ℕ) (cx : ℚ) : ℕ :=
  let score : ℕ := 50
  let score := score + (if uc < 256 then 30 else if uc < 1000 then 20
    else if uc < 5000 then 10 else 0)
  let score := score + (if cx < 5 then 20 else if cx < 10 then 10 else 0)
  min 100 score

end V3

/-! ## JavaScript numeric conversions

Stores into a `Uint8ClampedArray` clamp to `[0,255]` and round to the nearest
integer with ties to even (ECMAScript `ToUint8Clamp`); `Math.round` rounds
half toward positive infinity. -/

/-- `Math.round` on a nonnegative rational: `⌊x + 1/2⌋`. -/
def jsRound (x : ℚ) : ℤ :=
  ⌊x + 1/2⌋

/-- Round to the nearest integer, ties to even (the rounding step of
ECMAScript `ToUint8Clamp`). -/
def roundTiesEven (x : ℚ) : ℤ :=
  if 1/2 < x - ⌊x⌋ then ⌊x⌋ + 1
  else if x - ⌊x⌋ < 1/2 then ⌊x⌋
  else if Even ⌊x⌋ then ⌊x⌋ else ⌊x⌋ + 1

/-- ECMAScript `ToUint8Clamp`: the conversion applied when a number is stored
into a `Uint8ClampedArray` slot. -/
def toUint8Clamp (x : ℚ) : ℕ :=
  if x ≤ 0 then 0
  else if 255 ≤ x then 255
  else (roundTiesEven x).toNat

/-! ## `AdvancedProcessor.applyColorQuantization` (part_000 lines 505–517) -/

/-- One channel of the quantization step at a given rational `step`:
`Math.round(c / step) * step`, stored back into the clamped byte array. -/
def quantizeChannelStep (step : ℚ) (c : ℕ) : ℕ :=
  toUint8Clamp ((jsRound ((c : ℚ) / step) : ℚ) * step)

/-- One channel of the quantization step with `step = 256 / levels`
(part_000 lines 508–513). -/
def quantizeChannel (levels : ℕ) (c : ℕ) : ℕ :=
  quantizeChannelStep (256 / (levels : ℚ)) c

/-- The per-pixel action of `applyColorQuantization`: R, G and B are
quantized; the alpha slot `data[i+3]` is not written. -/
def quantizePixel (levels : ℕ) (p : Pixel) : Pixel :=
  ⟨quantizeChannel levels p.r, quantizeChannel levels p.g,
    quantizeChannel levels p.b, p.a⟩

/-- `AdvancedProcessor.applyColorQuantization` over a pixel buffer. -/
def applyColorQuantization (levels : ℕ) (data : List Pixel) : List Pixel :=
  data.map (quantizePixel levels)

/-! ## `AdvancedProcessor.detectEdges` (part_000 lines 426–462)

A bitmap is modelled as a total function from coordinates to pixels; the
`getImageData` flat indexing `((y+ky)*width+(x+kx))*4` is the row-major
layout of that function. -/

/-- The horizontal Sobel kernel, indexed `[ky+1][kx+1]`
(part_000 lines 431–435). -/
def sobelX (ky kx : Fin 3) : ℤ :=
  ![![-1, 0, 1], ![-2, 0, 2], ![-1, 0, 1]] ky kx

/-- The vertical Sobel kernel, indexed `[ky+1][kx+1]`
(part_000 lines 436–440). -/
def sobelY (ky kx : Fin 3) : ℤ :=
  ![![-1, -2, -1], ![0, 0, 0], ![1, 2, 1]] ky kx

/-- The grayscale projection `(data[i] + data[i+1] + data[i+2]) / 3`
(part_000 line 450): the unweighted channel average. -/
def gray (bm : ℕ → ℕ → Pixel) (x y : ℕ) : ℚ :=
  (((bm x y).r : ℚ) + ((bm x y).g : ℚ) + ((bm x y).b : ℚ)) / 3

/-- The horizontal Sobel response `gx` at an interior pixel `(x, y)`,
`x, y ≥ 1` (part_000 lines 447–453); the neighbor at offset `(kx-1, ky-1)`
is `(x - 1 + kx, y - 1 + ky)`. -/
def sobelGx (bm : ℕ → ℕ → Pixel) (x y : ℕ) : ℚ :=
  ∑ ky : Fin 3, ∑ kx : Fin 3,
    gray bm (x - 1 + kx) (y - 1 + ky) * (sobelX ky kx : ℚ)

/-- The vertical Sobel response `gy` at an interior pixel `(x, y)`. -/
def sobelGy (bm : ℕ → ℕ → Pixel) (x y : ℕ) : ℚ :=
  ∑ ky : Fin 3, ∑ kx : Fin 3,
    gray bm (x - 1 + kx) (y - 1 + ky) * (sobelY ky kx : ℚ)

/-- `AdvancedProcessor.detectEdges`: the edge map starts as an all-zero
`Float32Array`; every interior pixel (`1 ≤ x < width-1`, `1 ≤ y < height-1`)
receives `min 1 (sqrt (gx² + gy²) / 255)`; all other entries stay `0`. -/
noncomputable def detectEdges (bm : ℕ → ℕ → Pixel) (width height : ℕ)
    (x y : ℕ) : ℝ :=
  if 1 ≤ x ∧ x + 1 < width ∧ 1 ≤ y ∧ y + 1 < height then
    min 1 (Real.sqrt (((sobelGx bm x y : ℝ))^2 + ((sobelGy bm x y : ℝ))^2) / 255)
  else 0

/-! ## Real-valued store conversion

The blur and sharpen stages compute with Gaussian weights and edge strengths
(`Math.exp`, `Math.sqrt`), so their stored values are real numbers; the store
into the clamped byte array is the same `ToUint8Clamp` conversion over `ℝ`. -/

/-- Round to the nearest integer, ties to even, over `ℝ`. -/
noncomputable def roundTiesEvenR (x : ℝ) : ℤ :=
  if 1/2 < x - ⌊x⌋ then ⌊x⌋ + 1
  else if x - ⌊x⌋ < 1/2 then ⌊x⌋
  else if Even ⌊x⌋ then ⌊x⌋ else ⌊x⌋ + 1

/-- ECMAScript `ToUint8Clamp` over `ℝ`. -/
noncomputable def toUint8ClampR (x : ℝ) : ℕ :=
  if x ≤ 0 then 0
  else if 255 ≤ x then 255
  else (roundTiesEvenR x).toNat

/-! ## `AdvancedProcessor.applyChromaSubsampling` (part_000 lines 302–354)

Each non-overlapping 2×2 block is processed independently: the first pass
reads only the block's own (still unmodified) pixels, and the writes of the
second pass stay inside the block, so the mutation is the per-pixel function
of the original bitmap below, with block origin `(2*(x/2), 2*(y/2))`. -/

/-- The Cb value of a pixel (part_000 line 319). -/
def cbOf (p : Pixel) : ℚ :=
  128 - 0.168736 * (p.r : ℚ) - 0.331264 * (p.g : ℚ) + 0.5 * (p.b : ℚ)

/-- The Cr value of a pixel (part_000 line 320). -/
def crOf (p : Pixel) : ℚ :=
  128 + 0.5 * (p.r : ℚ) - 0.418688 * (p.g : ℚ) - 0.081312 * (p.b : ℚ)

/-- The luma value of a pixel (part_000 line 338). -/
def lumaOf (p : Pixel) : ℚ :=
  0.299 * (p.r : ℚ) + 0.587 * (p.g : ℚ) + 0.114 * (p.b : ℚ)

/-- `count`: the number of in-bounds pixels of the 2×2 block at `(X, Y)`
(part_000 lines 312–325). -/
def blockCount (w h X Y : ℕ) : ℕ :=
  ∑ dy : Fin 2, ∑ dx : Fin 2, if Y + dy < h ∧ X + dx < w then 1 else 0

/-- `cbSum` over the in-bounds pixels of the 2×2 block at `(X, Y)`. -/
def blockCbSum (bm : ℕ → ℕ → Pixel) (w h X Y : ℕ) : ℚ :=
  ∑ dy : Fin 2, ∑ dx : Fin 2,
    if Y + dy < h ∧ X + dx < w then cbOf (bm (X + dx) (Y + dy)) else 0

/-- `crSum` over the in-bounds pixels of the 2×2 block at `(X, Y)`. -/
def blockCrSum (bm : ℕ → ℕ → Pixel) (w h X Y : ℕ) : ℚ :=
  ∑ dy : Fin 2, ∑ dx : Fin 2,
    if Y + dy < h ∧ X + dx < w then crOf (bm (X + dx) (Y + dy)) else 0

/-- `AdvancedProcessor.applyChromaSubsampling` as a per-pixel function: each
in-bounds pixel is rebuilt from its own luma and its block's average chroma,
blended with the original by `strength`; `data[i+3]` is never written. -/
def applyChromaSubsampling (bm : ℕ → ℕ → Pixel) (w h : ℕ) (strength : ℚ) :
    ℕ → ℕ → Pixel :=
  fun x y =>
    if x < w ∧ y < h then
      let X := 2 * (x / 2)
      let Y := 2 * (y / 2)
      let cbAvg := blockCbSum bm w h X Y / (blockCount w h X Y : ℚ)
      let crAvg := blockCrSum bm w h X Y / (blockCount w h X Y : ℚ)
      let p := bm x y
      let yVal := lumaOf p
      let newR := yVal + 1.402 * (crAvg - 128)
      let newG := yVal - 0.344136 * (cbAvg - 128) - 0.714136 * (crAvg - 128)
      let newB := yVal + 1.772 * (cbAvg - 128)
      ⟨toUint8Clamp ((p.r : ℚ) * (1 - strength) + newR * strength),
        toUint8Clamp ((p.g : ℚ) * (1 - strength) + newG * strength),
        toUint8Clamp ((p.b : ℚ) * (1 - strength) + newB * strength),
        p.a⟩
    else bm x y

/-! ## `AdvancedProcessor.applySelectiveBlur` (part_000 lines 356–424)

The blur reads the untouched input array and writes into a copy, so it is a
per-pixel function of the original bitmap. -/

/-- `createGaussianKernel` size: `Math.ceil(sigma * 3) * 2 + 1`
(part_000 line 401). -/
def kernelSize (sigma : ℚ) : ℕ :=
  (⌈sigma * 3⌉).toNat * 2 + 1

/-- One unnormalized Gaussian kernel entry
`exp(-(dx² + dy²) / (2·sigma²))` (part_000 lines 406–415). -/
noncomputable def gaussianKernelRaw (sigma : ℚ) (ky kx : ℕ) : ℝ :=
  let center := kernelSize sigma / 2
  Real.exp (-((((kx : ℤ) - (center : ℤ))^2 + ((ky : ℤ) - (center : ℤ))^2 : ℤ) : ℝ) /
    (2 * (sigma : ℝ)^2))

/-- The sum of all unnormalized kernel entries. -/
noncomputable def gaussianKernelSum (sigma : ℚ) : ℝ :=
  ∑ ky : Fin (kernelSize sigma), ∑ kx : Fin (kernelSize sigma),
    gaussianKernelRaw sigma ky kx

/-- A normalized kernel entry (part_000 lines 417–421). -/
noncomputable def gaussianKernel (sigma : ℚ) (ky kx : ℕ) : ℝ :=
  gaussianKernelRaw sigma ky kx / gaussianKernelSum sigma

/-- The clamped sample column `Math.min(width-1, Math.max(0, x+kx-half))`
(part_000 line 378). -/
def clampedSample (limit : ℕ) (x kx half : ℕ) : ℕ :=
  (min ((limit : ℤ) - 1) (max 0 ((x : ℤ) + (kx : ℤ) - (half : ℤ)))).toNat

/-- `AdvancedProcessor.applySelectiveBlur` as a per-pixel function: pixels
whose edge-map value exceeds `0.22` keep their copied original; the rest get
Gaussian-averaged R, G and B; `output[i+3]` keeps the copied alpha. -/
noncomputable def applySelectiveBlur (bm : ℕ → ℕ → Pixel) (w h : ℕ)
    (edgeMap : ℕ → ℕ → ℝ) (blurRadius : ℚ) : ℕ → ℕ → Pixel :=
  fun x y =>
    if x < w ∧ y < h then
      if edgeMap x y > 0.22 then bm x y
      else
        let size := kernelSize blurRadius
        let half := size / 2
        let sample := fun (ky kx : Fin size) =>
          bm (clampedSample w x kx half) (clampedSample h y ky half)
        let totalWeight := ∑ ky : Fin size, ∑ kx : Fin size,
          gaussianKernel blurRadius ky kx
        let rSum := ∑ ky : Fin size, ∑ kx : Fin size,
          ((sample ky kx).r : ℝ) * gaussianKernel blurRadius ky kx
        let gSum := ∑ ky : Fin size, ∑ kx : Fin size,
          ((sample ky kx).g : ℝ) * gaussianKernel blurRadius ky kx
        let bSum := ∑ ky : Fin size, ∑ kx : Fin size,
          ((sample ky kx).b : ℝ) * gaussianKernel blurRadius ky kx
        ⟨toUint8ClampR (rSum / totalWeight), toUint8ClampR (gSum / totalWeight),
          toUint8ClampR (bSum / totalWeight), (bm x y).a⟩
    else bm x y

/-! ## `AdvancedProcessor.applyAdaptiveSharpening` (part_000 lines 464–503) -/

/-- `AdvancedProcessor.applyAdaptiveSharpening` as a per-pixel function: an
interior pixel with edge strength at least `0.12` has each of R, G, B pushed
away from its 4-neighbor average by `(current - neighbors) * localStrength`,
clamped to `[0, 255]`; `output[i+3]` keeps the copied alpha. -/
noncomputable def applyAdaptiveSharpening (bm : ℕ → ℕ → Pixel) (w h : ℕ)
    (edgeMap : ℕ → ℕ → ℝ) (strength : ℝ) : ℕ → ℕ → Pixel :=
  fun x y =>
    if 1 ≤ x ∧ x + 1 < w ∧ 1 ≤ y ∧ y + 1 < h then
      if edgeMap x y < 0.12 then bm x y
      else
        let p := bm x y
        let localStrength := strength * edgeMap x y
        let sharpen := fun (sel : Pixel → ℕ) =>
          let current : ℝ := (sel p : ℝ)
          let neighbors : ℝ := ((sel (bm (x - 1) y) : ℝ) + (sel (bm (x + 1) y) : ℝ) +
            (sel (bm x (y - 1)) : ℝ) + (sel (bm x (y + 1)) : ℝ)) / 4
          toUint8ClampR (min 255 (max 0 (current + (current - neighbors) * localStrength)))
        ⟨sharpen Pixel.r, sharpen Pixel.g, sharpen Pixel.b, p.a⟩
    else bm x y

/-- The quantization stage acting on the bitmap function model (in-bounds
pixels quantized, as in the flat-array loop of part_000 lines 510–514). -/
def applyColorQuantizationAt (levels : ℕ) (bm : ℕ → ℕ → Pixel) (w h : ℕ) :
    ℕ → ℕ → Pixel :=
  fun x y => if x < w ∧ y < h then quantizePixel levels (bm x y) else bm x y

/-- The preprocessing portion of `CompressionEngine.createOptimizedCanvas`
(part_000 lines 650–684): edge map computed once from the original bitmap,
then chroma subsampling (0.78), selective blur (1.4), color quantization
(218), and — only for photos downscaled below 0.88 — adaptive sharpening
(0.75). -/
noncomputable def preprocessPipeline (bm : ℕ → ℕ → Pixel) (w h : ℕ)
    (imageType : ImageType) (scale : ℚ) : ℕ → ℕ → Pixel :=
  let edgeMap := detectEdges bm w h
  let s1 := applyChromaSubsampling bm w h 0.78
  let s2 := applySelectiveBlur s1 w h edgeMap 1.4
  let s3 := applyColorQuantizationAt 218 s2 w h
  if imageType = ImageType.photo ∧ scale < 0.88 then
    applyAdaptiveSharpening s3 w h edgeMap 0.75
  else s3

/-! ## `CompressionEngine` (part_000 lines 522–632)

The external encoder `ImageUtils.canvasToBlob` and the DOM-backed
`scaleCanvas` are universally quantified parameters over abstract `Canvas`,
`Format` and `Blob` types; `blobSize` reads `blob.size`.  Per §8 of the spec
the encoder is deterministic for a fixed `(canvas, format, quality)`. -/

/-- The quality-mode enum `CompressionQuality` (part_000 lines 19–25). -/
inductive CompressionQuality where
  | maximum
  | high
  | balanced
  | aggressive
  | extreme
deriving DecidableEq, Repr

/-- One row of the quality-adjustment table: `range`, `boost`, `tolerance`
and the iteration budget. -/
structure QualityAdjustment where
  range : ℚ
  boost : ℚ
  tolerance : ℚ
  iterations : ℕ
deriving DecidableEq, Repr

/-- v4.0.0 `CompressionEngine.getQualityAdjustment`
(part_000 lines 560–594). -/
def getQualityAdjustment : CompressionQuality → QualityAdjustment
  | CompressionQuality.maximum => ⟨0.2, 0.06, 1.15, 10⟩
  | CompressionQuality.high => ⟨0.3, 0.02, 1.1, 12⟩
  | CompressionQuality.balanced => ⟨0.4, -0.03, 1.03, 14⟩
  | CompressionQuality.aggressive => ⟨0.5, -0.1, 0.96, 18⟩
  | CompressionQuality.extreme => ⟨0.6, -0.15, 0.88, 24⟩

/-- The slice of the `AnalysisReport` consumed by the compression engine. -/
structure Analysis where
  recommendedQuality : ℚ
deriving DecidableEq, Repr

/-- A record of one binary-search iteration: the interval `[lo, hi]` at entry,
the probed quality `q`, the blob the encoder returned, and whether the size
test succeeded. -/
structure Probe (Blob : Type) where
  lo : ℚ
  hi : ℚ
  q : ℚ
  blob : Blob
  ok : Bool

/-- The state left by the binary-search loop: the probes performed, the
current best blob, and the final `minQuality`. -/
structure SearchResult (Blob : Type) where
  probes : List (Probe Blob)
  best : Option Blob
  finalMin : ℚ

section Engine

variable {Canvas Format Blob : Type}
variable (canvasToBlob : Canvas → Format → ℚ → Blob) (blobSize : Blob → ℕ)
variable (scaleCanvas : Canvas → ℚ → Canvas)

/-- The `while` loop of `CompressionEngine.compress` (part_000 lines
539–551), instrumented with the list of probes it performs: while the
iteration budget is not exhausted and `maxQuality - minQuality > 0.002`,
encode at the midpoint; on success the blob becomes the best candidate and
the floor rises to the probed quality, otherwise the ceiling drops to it. -/
def searchLoop (canvas : Canvas) (format : Format) (targetSize : ℕ)
    (tolerance : ℚ) : ℕ → ℚ → ℚ → Option Blob → SearchResult Blob
  | 0, lo, _, best => ⟨[], best, lo⟩
  | fuel + 1, lo, hi, best =>
    if hi - lo > 0.002 then
      if (blobSize (canvasToBlob canvas format ((lo + hi) / 2)) : ℚ) ≤
          (targetSize : ℚ) * tolerance then
        ⟨⟨lo, hi, (lo + hi) / 2, canvasToBlob canvas format ((lo + hi) / 2), true⟩ ::
            (searchLoop canvas format targetSize tolerance fuel ((lo + hi) / 2) hi
              (some (canvasToBlob canvas format ((lo + hi) / 2)))).probes,
          (searchLoop canvas format targetSize tolerance fuel ((lo + hi) / 2) hi
            (some (canvasToBlob canvas format ((lo + hi) / 2)))).best,
          (searchLoop canvas format targetSize tolerance fuel ((lo + hi) / 2) hi
            (some (canvasToBlob canvas format ((lo + hi) / 2)))).finalMin⟩
      else
        ⟨⟨lo, hi, (lo + hi) / 2, canvasToBlob canvas format ((lo + hi) / 2), false⟩ ::
            (searchLoop canvas format targetSize tolerance fuel lo ((lo + hi) / 2)
              best).probes,
          (searchLoop canvas format targetSize tolerance fuel lo ((lo + hi) / 2)
            best).best,
          (searchLoop canvas format targetSize tolerance fuel lo ((lo + hi) / 2)
            best).finalMin⟩
    else ⟨[], best, lo⟩

/-- The initial floor `max(0.02, baseQuality - range)` (part_000 line 533). -/
def initialMinQuality (analysis : Analysis) (adj : QualityAdjustment) : ℚ :=
  max 0.02 (analysis.recommendedQuality - adj.range)

/-- The initial ceiling `min(0.8, baseQuality + boost)` (part_000 line 534). -/
def initialMaxQuality (analysis : Analysis) (adj : QualityAdjustment) : ℚ :=
  min 0.8 (analysis.recommendedQuality + adj.boost)

/-- The loop state reached by `CompressionEngine.compress` for given inputs. -/
def compressSearch (canvas : Canvas) (format : Format) (targetSize : ℕ)
    (analysis : Analysis) (qualityMode : CompressionQuality) : SearchResult Blob :=
  let adj := getQualityAdjustment qualityMode
  searchLoop canvasToBlob blobSize canvas format targetSize adj.tolerance
    adj.iterations (initialMinQuality analysis adj) (initialMaxQuality analysis adj) none

/-- v4.0.0 `CompressionEngine.compress` (part_000 lines 523–558): the best
blob found by the binary search, or — when no probe ever met the tolerance —
one extra encode at the final `minQuality`. -/
def compress (canvas : Canvas) (format : Format) (targetSize : ℕ)
    (analysis : Analysis) (qualityMode : CompressionQuality) : Blob :=
  let r := compressSearch canvasToBlob blobSize canvas format targetSize
    analysis qualityMode
  match r.best with
  | some blob => blob
  | none => canvasToBlob canvas format r.finalMin

/-- The number of encoder (`canvasToBlob`) calls one `compress` call makes:
one per probe, plus the fallback encode when no probe succeeded. -/
def compressEncoderCalls (canvas : Canvas) (format : Format) (targetSize : ℕ)
    (analysis : Analysis) (qualityMode : CompressionQuality) : ℕ :=
  let r := compressSearch canvasToBlob blobSize canvas format targetSize
    analysis qualityMode
  match r.best with
  | some _ => r.probes.length
  | none => r.probes.length + 1

/-- The fixed descending downscale ladder of `advancedOptimize`
(part_000 lines 597–600). -/
def advancedOptimizeScales : List ℚ :=
  [0.94, 0.9, 0.86, 0.82, 0.78, 0.74, 0.7, 0.66, 0.62, 0.58, 0.54, 0.5,
    0.46, 0.42, 0.38, 0.35]

/-- The body of one `advancedOptimize` loop iteration (part_000 lines
603–610): rescale the canvas and rerun the controller at the `EXTREME`
profile. -/
def scaleCandidate (canvas : Canvas) (format : Format) (targetSize : ℕ)
    (analysis : Analysis) (scale : ℚ) : Blob :=
  compress canvasToBlob blobSize (scaleCanvas canvas scale) format targetSize
    analysis CompressionQuality.extreme

/-- The `for`-loop of `advancedOptimize` (part_000 lines 602–618): rescale,
recompress at the `EXTREME` profile, return the first blob at or under
target; after the list is exhausted, one final encode at scale `0.32` and
quality `0.02`. -/
def advancedOptimizeGo (canvas : Canvas) (format : Format) (targetSize : ℕ)
    (analysis : Analysis) : List ℚ → Blob
  | [] => canvasToBlob (scaleCanvas canvas 0.32) format 0.02
  | scale :: rest =>
    if blobSize (scaleCandidate canvasToBlob blobSize scaleCanvas canvas format
        targetSize analysis scale) ≤ targetSize then
      scaleCandidate canvasToBlob blobSize scaleCanvas canvas format targetSize
        analysis scale
    else advancedOptimizeGo canvas format targetSize analysis rest

/-- v4.0.0 `CompressionEngine.advancedOptimize` (part_000 lines 596–619). -/
def advancedOptimize (canvas : Canvas) (format : Format) (targetSize : ℕ)
    (analysis : Analysis) : Blob :=
  advancedOptimizeGo canvasToBlob blobSize scaleCanvas canvas format targetSize
    analysis advancedOptimizeScales

/-- `advancedOptimizeGo`, instrumented with the scales actually tried and
whether the terminal last-resort encode was performed. -/
def advancedOptimizeTraced (canvas : Canvas) (format : Format) (targetSize : ℕ)
    (analysis : Analysis) : List ℚ → Blob × List ℚ × Bool
  | [] => (canvasToBlob (scaleCanvas canvas 0.32) format 0.02, [], true)
  | scale :: rest =>
    if blobSize (scaleCandidate canvasToBlob blobSize scaleCanvas canvas format
        targetSize analysis scale) ≤ targetSize then
      (scaleCandidate canvasToBlob blobSize scaleCanvas canvas format targetSize
        analysis scale, [scale], false)
    else
      ((advancedOptimizeTraced canvas format targetSize analysis rest).1,
        scale :: (advancedOptimizeTraced canvas format targetSize analysis rest).2.1,
        (advancedOptimizeTraced canvas format targetSize analysis rest).2.2)

end Engine

/-! ## `UltraCompressPro._processVersions` (part_000 lines 1245–1319)

The body of the per-preset `try` block (dimension calculation, canvas
creation, compression, the conditional `advancedOptimize` rerun, metadata)
is a DOM-and-encoder computation abstracted as one fallible function from
the preset index and preset to a version result; the `catch` logs and
continues with the next preset. -/

/-- An output preset: maximum dimension, target byte size, optional forced
aspect ratio. -/
structure Preset where
  maxDimension : ℕ
  targetSize : ℕ
  aspect : Option ℚ
deriving DecidableEq, Repr

section Orchestrator

variable {Version Err : Type}

/-- The `for` loop of `_processVersions` from index `i` on: a successful
preset pushes its version, a failing preset is caught and skipped. -/
def processVersionsGo (processOne : ℕ → Preset → Except Err Version) :
    ℕ → List Preset → List Version
  | _, [] => []
  | i, preset :: rest =>
    match processOne i preset with
    | Except.ok v => v :: processVersionsGo processOne (i + 1) rest
    | Except.error _ => processVersionsGo processOne (i + 1) rest

/-- `UltraCompressPro._processVersions`: the collected version list. -/
def processVersions (processOne : ℕ → Preset → Except Err Version)
    (presets : List Preset) : List Version :=
  processVersionsGo processOne 0 presets

end Orchestrator

/-! ## C10: v3.0.0 / v4.0.0 analyzer arithmetic agreement -/

/-- C10: the two embedded library versions implement extensionally equal
analyzer arithmetic: `calculateCompressibility` returns the same score for
every `(uniqueColors, complexity)` pair, and the image-type classification
agrees for every such pair. -/
theorem v3_v4_analyzer_arithmetic_agrees (uc : ℕ) (cx : ℚ) :
    V3.calculateCompressibility uc cx = calculateCompressibility uc cx ∧
    V3.classifyImageType uc cx = classifyImageType uc cx :=
  ⟨rfl, rfl⟩

/-! ## C3: strict classification thresholds -/

/-- C3: the analyzer's classification is first-match-wins with strict
comparisons — `uniqueColors < 256` gives `graphic`; otherwise
`complexity < 5` gives `simple`; otherwise `complexity > 20` gives
`complex`; otherwise `photo`.  At the boundaries, a probe with exactly 256
unique colors is not `graphic`, complexity exactly 5 is not `simple`, and
complexity exactly 20 is not `complex`. -/
theorem analyzer_classification_strict_thresholds (pixels : List Pixel) :
    (uniqueColors pixels < 256 → analyzeImageType pixels = ImageType.graphic) ∧
    (¬ uniqueColors pixels < 256 → complexity pixels < 5 →
      analyzeImageType pixels = ImageType.simple) ∧
    (¬ uniqueColors pixels < 256 → ¬ complexity pixels < 5 →
      20 < complexity pixels → analyzeImageType pixels = ImageType.complex) ∧
    (¬ uniqueColors pixels < 256 → ¬ complexity pixels < 5 →
      ¬ 20 < complexity pixels → analyzeImageType pixels = ImageType.photo) ∧
    (uniqueColors pixels = 256 → analyzeImageType pixels ≠ ImageType.graphic) ∧
    (complexity pixels = 5 → analyzeImageType pixels ≠ ImageType.simple) ∧
    (complexity pixels = 20 → analyzeImageType pixels ≠ ImageType.complex) := by
  refine ⟨?_, ?_, ?_, ?_, ?_, ?_, ?_⟩ <;>
    simp only [analyzeImageType, classifyImageType]
  · intro h; simp [h]
  · intro h1 h2; simp [h1, h2]
  · intro h1 h2 h3; simp [h1, h2, h3]
  · intro h1 h2 h3; simp [h1, h2, h3]
  · intro h; rw [h]; split_ifs <;> simp_all
  · intro h; rw [h]; split_ifs <;> simp_all
  · intro h; rw [h]; split_ifs <;> simp_all

/-- A one-pixel probe: one unique color, classified `graphic`. -/
def probeGraphic : List Pixel :=
  [⟨0, 0, 0, 255⟩]

/-- A 256-color ramp probe: 256 unique colors, zero edges. -/
def probeSimple : List Pixel :=
  (List.range 256).map fun n => ⟨n, 0, 0, 255⟩

/-- A 256-color probe in which every scan-order step jumps by 201: 256
unique colors, 255 edges, high complexity. -/
def probeComplexHigh : List Pixel :=
  (List.range 256).map fun n => ⟨n, if n % 2 = 0 then 0 else 200, 0, 255⟩

/-- A 280-pixel probe with 280 unique colors and exactly 14 edges:
complexity exactly 5. -/
def probeBoundaryFive : List Pixel :=
  ((List.range 256).map fun n => ⟨n, 0, 0, 255⟩) ++
    ((List.range 24).map fun k =>
      ⟨0, k + 1, if k ≤ 13 ∧ k % 2 = 0 then 200 else 0, 255⟩)

/-- A 320-pixel probe with 320 unique colors and exactly 64 edges:
complexity exactly 20. -/
def probeBoundaryTwenty : List Pixel :=
  ((List.range 256).map fun n => ⟨n, 0, 0, 255⟩) ++
    ((List.range 64).map fun k =>
      ⟨0, k + 1, if k % 2 = 0 then 200 else 0, 255⟩)

/-- Unique-color count of a probe whose color keys have no duplicates. -/
lemma uniqueColors_of_nodup (pixels : List Pixel)
    (h : (pixels.map colorKey).Nodup) : uniqueColors pixels = pixels.length := by
  simp [uniqueColors, List.dedup_eq_self.mpr h]

/-- The ramp-plus-tail probes have pairwise distinct color keys. -/
lemma rampTail_nodup (f : ℕ → ℕ) (m : ℕ) :
    ((((List.range 256).map fun n => (⟨n, 0, 0, 255⟩ : Pixel)) ++
      ((List.range m).map fun k => (⟨0, k + 1, f k, 255⟩ : Pixel))).map
        colorKey).Nodup := by
  simp only [List.map_append, List.map_map]
  rw [List.nodup_append]
  refine ⟨?_, ?_, ?_⟩
  · refine List.Nodup.map ?_ (List.nodup_range _)
    intro a b hab
    simpa [colorKey] using hab
  · refine List.Nodup.map ?_ (List.nodup_range _)
    intro a b hab
    simp [colorKey] at hab
    exact hab.1
  · intro x hx hy
    simp [colorKey] at hx hy
    obtain ⟨n, hn, rfl⟩ := hx
    obtain ⟨k, hk, h1, h2, h3⟩ := hy

/-- The unique-color count of each witness probe. -/
lemma probe_uniqueColors :
    uniqueColors probeSimple = 256 ∧ uniqueColors probeComplexHigh = 256 ∧
    uniqueColors probeBoundaryFive = 280 ∧
    uniqueColors probeBoundaryTwenty = 320 := by
  refine ⟨?_, ?_, ?_, ?_⟩
  · rw [uniqueColors_of_nodup]
    · simp [probeSimple]
    · simp only [probeSimple, List.map_map]
      refine List.Nodup.map ?_ (List.nodup_range _)
      intro a b hab
      simpa [colorKey] using hab
  · rw [uniqueColors_of_nodup]
    · simp [probeComplexHigh]
    · simp only [probeComplexHigh, List.map_map]
      refine List.Nodup.map ?_ (List.nodup_range _)
      intro a b hab
      simp [colorKey] at hab
      exact hab.1
  · simp only [probeBoundaryFive]
    rw [uniqueColors_of_nodup (h := rampTail_nodup _ _)]
    simp
  · simp only [probeBoundaryTwenty]
    rw [uniqueColors_of_nodup (h := rampTail_nodup _ _)]
    simp

set_option maxRecDepth 8000 in
/-- The edge count and length of each witness probe. -/
lemma probe_edges_lengths :
    edgeCount probeSimple = 0 ∧ probeSimple.length = 256 ∧
    edgeCount probeComplexHigh = 255 ∧ probeComplexHigh.length = 256 ∧
    edgeCount probeBoundaryFive = 14 ∧ probeBoundaryFive.length = 280 ∧
    edgeCount probeBoundaryTwenty = 64 ∧ probeBoundaryTwenty.length = 320 := by
  refine ⟨by decide, by decide, by decide, by decide, by decide, by decide,
    by decide, by decide⟩

/-- The complexity of each witness probe. -/
lemma probe_complexities :
    complexity probeSimple = 0 ∧ complexity probeComplexHigh = 12750 / 128 ∧
    complexity probeBoundaryFive = 5 ∧ complexity probeBoundaryTwenty = 20 := by
  obtain ⟨e1, l1, e2, l2, e3, l3, e4, l4⟩ := probe_edges_lengths
  refine ⟨?_, ?_, ?_, ?_⟩ <;> simp only [complexity, e1, l1, e2, l2, e3, l3, e4, l4] <;>
    norm_num

/-- Witness for C3: each classification branch and each boundary fact
realized on a concrete probe. -/
theorem analyzer_classification_strict_thresholds_witness :
    analyzeImageType probeGraphic = ImageType.graphic ∧
    analyzeImageType probeSimple = ImageType.simple ∧
    analyzeImageType probeComplexHigh = ImageType.complex ∧
    analyzeImageType probeBoundaryFive = ImageType.photo ∧
    analyzeImageType probeSimple ≠ ImageType.graphic ∧
    analyzeImageType probeBoundaryFive ≠ ImageType.simple ∧
    analyzeImageType probeBoundaryTwenty ≠ ImageType.complex := by
  obtain ⟨hu1, hu2, hu3, hu4⟩ := probe_uniqueColors
  obtain ⟨hc1, hc2, hc3, hc4⟩ := probe_complexities
  refine ⟨(analyzer_classification_strict_thresholds probeGraphic).1 (by decide),
    (analyzer_classification_strict_thresholds probeSimple).2.1 ?_ ?_,
    (analyzer_classification_strict_thresholds probeComplexHigh).2.2.1 ?_ ?_ ?_,
    (analyzer_classification_strict_thresholds probeBoundaryFive).2.2.2.1 ?_ ?_ ?_,
    (analyzer_classification_strict_thresholds probeSimple).2.2.2.2.1 hu1,
    (analyzer_classification_strict_thresholds probeBoundaryFive).2.2.2.2.2.1 hc3,
    (analyzer_classification_strict_thresholds probeBoundaryTwenty).2.2.2.2.2.2 hc4⟩
  · rw [hu1]; norm_num
  · rw [hc1]; norm_num
  · rw [hu2]; norm_num
  · rw [hc2]; norm_num
  · rw [hc2]; norm_num
  · rw [hu3]; norm_num
  · rw [hc3]; norm_num
  · rw [hc3]; norm_num

/-! ## C4: the recommended-quality tiers -/

/-- C4 counterexample: graphic/simple images do NOT get the lowest quality
target of all classes — a high-complexity opaque photo gets 0.48, strictly
below the 0.65 returned for a graphic image, refuting the claimed ordering
at a concrete input. -/
theorem recommended_quality_graphic_not_lowest :
    ¬ calculateRecommendedQuality 0 ImageType.graphic false ≤
      calculateRecommendedQuality 25 ImageType.photo false := by
  simp only [calculateRecommendedQuality]
  split_ifs <;> simp_all <;> norm_num

/-- C4 (amended): `calculateRecommendedQuality` is the four-tier table of
the source — graphic/simple images get the fixed value 0.65 (0.85 in
v3.0.0); other images with transparency and complexity below 10 get the
highest value 0.7 (0.88); of the rest, complexity above 20 gets the lowest
value of all classes 0.48 (0.75); everything else gets the mid-range
default 0.58 (0.8).  The realized ordering is
high-complexity < default < graphic/simple < transparent-low-complexity,
and every output lies in [0.48, 0.7] ([0.75, 0.88] for v3.0.0). -/
theorem recommended_quality_tiers (cx : ℚ) (ty : ImageType) (t : Bool) :
    (ty = ImageType.graphic ∨ ty = ImageType.simple →
      calculateRecommendedQuality cx ty t = 0.65 ∧
      V3.calculateRecommendedQuality cx ty t = 0.85) ∧
    (ty ≠ ImageType.graphic → ty ≠ ImageType.simple → t = true → cx < 10 →
      calculateRecommendedQuality cx ty t = 0.7 ∧
      V3.calculateRecommendedQuality cx ty t = 0.88) ∧
    (ty ≠ ImageType.graphic → ty ≠ ImageType.simple → ¬ (t = true ∧ cx < 10) →
      20 < cx →
      calculateRecommendedQuality cx ty t = 0.48 ∧
      V3.calculateRecommendedQuality cx ty t = 0.75) ∧
    (ty ≠ ImageType.graphic → ty ≠ ImageType.simple → ¬ (t = true ∧ cx < 10) →
      ¬ 20 < cx →
      calculateRecommendedQuality cx ty t = 0.58 ∧
      V3.calculateRecommendedQuality cx ty t = 0.8) ∧
    ((0.48 : ℚ) ≤ calculateRecommendedQuality cx ty t ∧
      calculateRecommendedQuality cx ty t ≤ 0.7) ∧
    ((0.75 : ℚ) ≤ V3.calculateRecommendedQuality cx ty t ∧
      V3.calculateRecommendedQuality cx ty t ≤ 0.88) := by
  refine ⟨?_, ?_, ?_, ?_, ?_, ?_⟩ <;>
    simp only [calculateRecommendedQuality, V3.calculateRecommendedQuality]
  · intro h; simp [h]
  · intro h1 h2 h3 h4
    simp [h1, h2, h3, h4]
  · intro h1 h2 h3 h4
    rw [if_neg (by simp [h1, h2]), if_neg (by simpa using h3), if_pos h4,
      if_neg (by simp [h1, h2]), if_neg (by simpa using h3), if_pos h4]
    exact ⟨rfl, rfl⟩
  · intro h1 h2 h3 h4
    rw [if_neg (by simp [h1, h2]), if_neg (by simpa using h3), if_neg h4,
      if_neg (by simp [h1, h2]), if_neg (by simpa using h3), if_neg h4]
    exact ⟨rfl, rfl⟩
  · split_ifs <;> norm_num
  · split_ifs <;> norm_num

/-- Witness for C4 (amended): all four tiers realized at concrete inputs. -/
theorem recommended_quality_tiers_witness :
    (calculateRecommendedQuality 0 ImageType.graphic false = 0.65 ∧
      V3.calculateRecommendedQuality 0 ImageType.graphic false = 0.85) ∧
    (calculateRecommendedQuality 5 ImageType.photo true = 0.7 ∧
      V3.calculateRecommendedQuality 5 ImageType.photo true = 0.88) ∧
    (calculateRecommendedQuality 25 ImageType.photo false = 0.48 ∧
      V3.calculateRecommendedQuality 25 ImageType.photo false = 0.75) ∧
    (calculateRecommendedQuality 15 ImageType.photo false = 0.58 ∧
      V3.calculateRecommendedQuality 15 ImageType.photo false = 0.8) :=
  ⟨(recommended_quality_tiers 0 ImageType.graphic false).1 (Or.inl rfl),
    (recommended_quality_tiers 5 ImageType.photo true).2.1
      (by simp) (by simp) rfl (by norm_num),
    (recommended_quality_tiers 25 ImageType.photo false).2.2.1
      (by simp) (by simp) (by simp) (by norm_num),
    (recommended_quality_tiers 15 ImageType.photo false).2.2.2.1
      (by simp) (by simp) (by simp) (by norm_num)⟩

/-! ## C9: the preprocessing stages never write the alpha channel -/

/-- Chroma subsampling leaves every alpha byte unchanged. -/
lemma chroma_preserves_alpha (bm : ℕ → ℕ → Pixel) (w h : ℕ) (strength : ℚ)
    (x y : ℕ) : (applyChromaSubsampling bm w h strength x y).a = (bm x y).a := by
  unfold applyChromaSubsampling
  split_ifs <;> rfl

/-- Selective blur leaves every alpha byte unchanged. -/
lemma blur_preserves_alpha (bm : ℕ → ℕ → Pixel) (w h : ℕ)
    (edgeMap : ℕ → ℕ → ℝ) (blurRadius : ℚ) (x y : ℕ) :
    (applySelectiveBlur bm w h edgeMap blurRadius x y).a = (bm x y).a := by
  unfold applySelectiveBlur
  split_ifs <;> rfl

/-- Color quantization leaves every alpha byte unchanged. -/
lemma quantization_preserves_alpha (levels : ℕ) (bm : ℕ → ℕ → Pixel)
    (w h x y : ℕ) :
    (applyColorQuantizationAt levels bm w h x y).a = (bm x y).a := by
  unfold applyColorQuantizationAt quantizePixel
  split_ifs <;> rfl

/-- Adaptive sharpening leaves every alpha byte unchanged. -/
lemma sharpening_preserves_alpha (bm : ℕ → ℕ → Pixel) (w h : ℕ)
    (edgeMap : ℕ → ℕ → ℝ) (strength : ℝ) (x y : ℕ) :
    (applyAdaptiveSharpening bm w h edgeMap strength x y).a = (bm x y).a := by
  unfold applyAdaptiveSharpening
  split_ifs <;> rfl

/-- C9: each of the four preprocessing stages — chroma subsampling,
edge-aware selective blur, color quantization and adaptive sharpening —
writes only the R, G and B bytes: for every input bitmap and every pixel,
the alpha byte is unchanged after each stage, after the flat-array
quantization pass, and therefore after the whole pipeline. -/
theorem preprocessing_preserves_alpha (bm : ℕ → ℕ → Pixel) (w h : ℕ)
    (strength : ℚ) (edgeMap : ℕ → ℕ → ℝ) (blurRadius : ℚ)
    (sharpenStrength : ℝ) (levels : ℕ) (data : List Pixel) (ty : ImageType)
    (scale : ℚ) (x y : ℕ) :
    (applyChromaSubsampling bm w h strength x y).a = (bm x y).a ∧
    (applySelectiveBlur bm w h edgeMap blurRadius x y).a = (bm x y).a ∧
    (applyColorQuantizationAt levels bm w h x y).a = (bm x y).a ∧
    (applyColorQuantization levels data).map Pixel.a = data.map Pixel.a ∧
    (applyAdaptiveSharpening bm w h edgeMap sharpenStrength x y).a = (bm x y).a ∧
    (preprocessPipeline bm w h ty scale x y).a = (bm x y).a := by
  refine ⟨chroma_preserves_alpha bm w h strength x y,
    blur_preserves_alpha bm w h edgeMap blurRadius x y,
    quantization_preserves_alpha levels bm w h x y, ?_, ?_, ?_⟩
  · simp only [applyColorQuantization, List.map_map]
    exact List.map_congr_left fun p _ => rfl
  · exact sharpening_preserves_alpha bm w h edgeMap sharpenStrength x y
  · unfold preprocessPipeline
    split_ifs
    · rw [sharpening_preserves_alpha, quantization_preserves_alpha,
        blur_preserves_alpha, chroma_preserves_alpha]
    · rw [quantization_preserves_alpha, blur_preserves_alpha,
        chroma_preserves_alpha]

/-! ## C7: the edge map is in [0,1] and zero on the border -/

/-- C7: every value of the edge map lies in `[0, 1]`; every border pixel
(`x = 0`, `x = width-1`, `y = 0` or `y = height-1`) is exactly `0`; interior
values equal the Sobel gradient magnitude of the unweighted-average
grayscale projection, divided by 255 and clamped to at most 1. -/
theorem detect_edges_range_border (bm : ℕ → ℕ → Pixel) (w h x y : ℕ) :
    (0 ≤ detectEdges bm w h x y ∧ detectEdges bm w h x y ≤ 1) ∧
    (x = 0 ∨ x + 1 = w ∨ y = 0 ∨ y + 1 = h → detectEdges bm w h x y = 0) ∧
    (1 ≤ x → x + 1 < w → 1 ≤ y → y + 1 < h →
      detectEdges bm w h x y =
        min 1 (Real.sqrt (((sobelGx bm x y : ℝ))^2 + ((sobelGy bm x y : ℝ))^2) / 255)) := by
  unfold detectEdges
  split_ifs with hin
  · obtain ⟨hx1, hx2, hy1, hy2⟩ := hin
    refine ⟨⟨le_min (by norm_num) (div_nonneg (Real.sqrt_nonneg _) (by norm_num)),
      min_le_left _ _⟩, ?_, fun _ _ _ _ => rfl⟩
    rintro (rfl | hxw | rfl | hyh) <;> omega
  · exact ⟨⟨le_refl 0, by norm_num⟩, fun _ => rfl, fun h1 h2 h3 h4 =>
      absurd ⟨h1, h2, h3, h4⟩ hin⟩

/-- Witness for C7: on a concrete 3×3 bitmap the border pixel `(0, 1)` maps
to `0` and the interior pixel `(1, 1)` carries the clamped Sobel magnitude. -/
theorem detect_edges_range_border_witness :
    detectEdges (fun _ _ => ⟨0, 0, 0, 255⟩) 3 3 0 1 = 0 ∧
    detectEdges (fun _ _ => ⟨7, 7, 7, 255⟩) 3 3 1 1 =
      min 1 (Real.sqrt (((sobelGx (fun _ _ => ⟨7, 7, 7, 255⟩) 1 1 : ℝ))^2 +
        ((sobelGy (fun _ _ => ⟨7, 7, 7, 255⟩) 1 1 : ℝ))^2) / 255) :=
  ⟨(detect_edges_range_border (fun _ _ => ⟨0, 0, 0, 255⟩) 3 3 0 1).2.1
      (Or.inl rfl),
    (detect_edges_range_border (fun _ _ => ⟨7, 7, 7, 255⟩) 3 3 1 1).2.2
      (by norm_num) (by norm_num) (by norm_num) (by norm_num)⟩

/-! ## C6: per-preset failures are caught, logged and skipped -/

/-- The loop of `_processVersions` from index `i` collects exactly the
successful entries of the index-annotated preset list, in order. -/
lemma processVersionsGo_eq_filterMap {Version Err : Type}
    (f : ℕ → Preset → Except Err Version) :
    ∀ (i : ℕ) (presets : List Preset),
      processVersionsGo f i presets =
        (presets.enumFrom i).filterMap fun ip => (f ip.1 ip.2).toOption := by
  intro i presets
  induction presets generalizing i with
  | nil => rfl
  | cons p rest ih =>
    simp only [processVersionsGo, List.enumFrom, List.filterMap_cons]
    cases hf : f i p <;> simp [Except.toOption, hf, ih]

/-- C6: `_processVersions` catches a failing preset and continues: the
returned list is exactly the in-order successes of the per-preset body, so
it has between 0 and N entries for N presets, and changing (or failing) the
body at one preset index never removes, reorders or alters the entries
contributed by the other presets. -/
theorem process_versions_catch_continue {Version Err : Type}
    (processOne : ℕ → Preset → Except Err Version) (presets : List Preset) :
    processVersions processOne presets =
      presets.enum.filterMap (fun ip => (processOne ip.1 ip.2).toOption) ∧
    (processVersions processOne presets).length ≤ presets.length ∧
    (∀ (g : ℕ → Preset → Except Err Version) (k : ℕ),
      (∀ i p, i ≠ k → g i p = processOne i p) →
      presets.enum.filterMap
        (fun ip => if ip.1 = k then none else (g ip.1 ip.2).toOption) =
      presets.enum.filterMap
        (fun ip => if ip.1 = k then none else (processOne ip.1 ip.2).toOption)) := by
  have h1 : processVersions processOne presets =
      presets.enum.filterMap (fun ip => (processOne ip.1 ip.2).toOption) :=
    processVersionsGo_eq_filterMap processOne 0 presets
  refine ⟨h1, ?_, ?_⟩
  · rw [h1]
    calc (presets.enum.filterMap fun ip => (processOne ip.1 ip.2).toOption).length
        ≤ presets.enum.length := List.length_filterMap_le _ _
      _ = presets.length := List.enum_length
  · intro g k hg
    refine List.filterMap_congr fun ip hip => ?_
    by_cases hk : ip.1 = k
    · simp [hk]
    · simp [hk, hg ip.1 ip.2 hk]

/-- A three-preset batch for the C6 witness. -/
def demoPresets : List Preset :=
  [⟨100, 1000, none⟩, ⟨200, 2000, none⟩, ⟨300, 3000, none⟩]

/-- A per-preset body that fails on the middle preset. -/
def demoProcessOne : ℕ → Preset → Except Unit ℕ :=
  fun i _ => if i = 1 then Except.error () else Except.ok i

/-- The same body with the middle preset repaired. -/
def demoProcessAlt : ℕ → Preset → Except Unit ℕ :=
  fun i _ => if i = 1 then Except.ok 99 else Except.ok i

/-- Witness for C6: on a concrete three-preset batch whose middle preset
fails, the result is the in-order success list, and the sibling entries do
not depend on what happens at the failing index. -/
theorem process_versions_catch_continue_witness :
    processVersions demoProcessOne demoPresets =
      demoPresets.enum.filterMap (fun ip => (demoProcessOne ip.1 ip.2).toOption) ∧
    demoPresets.enum.filterMap
      (fun ip => if ip.1 = 1 then none else (demoProcessAlt ip.1 ip.2).toOption) =
    demoPresets.enum.filterMap
      (fun ip => if ip.1 = 1 then none else (demoProcessOne ip.1 ip.2).toOption) :=
  ⟨(process_versions_catch_continue demoProcessOne demoPresets).1,
    (process_versions_catch_continue demoProcessOne demoPresets).2.2
      demoProcessAlt 1
      (fun i p hi => by simp [demoProcessAlt, demoProcessOne, hi])⟩

/-! ## C2: the iteration budget bounds the encoder calls -/

/-- Each loop iteration halves the search interval, so an interval of width
at most `2^k * 0.002` supports at most `k` probes, whatever the fuel. -/
lemma searchLoop_length_le {Canvas Format Blob : Type}
    (ct : Canvas → Format → ℚ → Blob) (bs : Blob → ℕ) (c : Canvas)
    (f : Format) (t : ℕ) (tol : ℚ) :
    ∀ (fuel k : ℕ) (lo hi : ℚ) (best : Option Blob),
      hi - lo ≤ 2 ^ k * 0.002 →
      (searchLoop ct bs c f t tol fuel lo hi best).probes.length ≤ k := by
  intro fuel
  induction fuel with
  | zero =>
    intro k lo hi best _
    simp [searchLoop]
  | succ fuel ih =>
    intro k lo hi best hgap
    simp only [searchLoop]
    split_ifs with hcond hsize
    · obtain ⟨k', rfl⟩ : ∃ k', k = k' + 1 := by
        cases k with
        | zero =>
          exfalso
          rw [pow_zero, one_mul] at hgap
          linarith
        | succ k' => exact ⟨k', rfl⟩
      have hstep : hi - (lo + hi) / 2 ≤ 2 ^ k' * 0.002 := by
        rw [pow_succ] at hgap
        linarith
      simpa using Nat.succ_le_succ (ih k' _ _ _ hstep)
    · obtain ⟨k', rfl⟩ : ∃ k', k = k' + 1 := by
        cases k with
        | zero =>
          exfalso
          rw [pow_zero, one_mul] at hgap
          linarith
        | succ k' => exact ⟨k', rfl⟩
      have hstep : (lo + hi) / 2 - lo ≤ 2 ^ k' * 0.002 := by
        rw [pow_succ] at hgap
        linarith
      simpa using Nat.succ_le_succ (ih k' _ _ _ hstep)
    · simp

/-- The clamped initial interval `[max(0.02, ·), min(0.8, ·)]` is at most
`0.78` wide, which nine halvings bring below the `0.002` epsilon. -/
lemma initial_gap_le {Canvas Format Blob : Type}
    (ct : Canvas → Format → ℚ → Blob) (bs : Blob → ℕ) (c : Canvas)
    (f : Format) (t : ℕ) (analysis : Analysis) (mode : CompressionQuality) :
    (compressSearch ct bs c f t analysis mode).probes.length ≤ 9 := by
  have hgap : initialMaxQuality analysis (getQualityAdjustment mode) -
      initialMinQuality analysis (getQualityAdjustment mode) ≤ 2 ^ 9 * 0.002 := by
    have h1 : initialMaxQuality analysis (getQualityAdjustment mode) ≤ 0.8 :=
      min_le_left _ _
    have h2 : (0.02 : ℚ) ≤ initialMinQuality analysis (getQualityAdjustment mode) :=
      le_max_left _ _
    norm_num at h1 h2 ⊢
    linarith
  exact searchLoop_length_le ct bs c f t _ _ 9 _ _ none hgap

/-- C2: `compress` terminates for every input (it is a total function of its
arguments) and never makes more than `profile.iterationBudget` encoder
calls, where the profile is looked up from the quality mode — including the
case where no probe met the tolerance and the best-effort fallback encode at
the final `minQuality` is performed. -/
theorem compress_encoder_calls_within_budget {Canvas Format Blob : Type}
    (canvasToBlob : Canvas → Format → ℚ → Blob) (blobSize : Blob → ℕ)
    (canvas : Canvas) (format : Format) (targetSize : ℕ) (analysis : Analysis)
    (qualityMode : CompressionQuality) :
    compressEncoderCalls canvasToBlob blobSize canvas format targetSize
      analysis qualityMode ≤ (getQualityAdjustment qualityMode).iterations := by
  have hbudget : 10 ≤ (getQualityAdjustment qualityMode).iterations := by
    cases qualityMode <;> decide
  have hlen := initial_gap_le canvasToBlob blobSize canvas format targetSize
    analysis qualityMode
  unfold compressEncoderCalls
  cases hsr : compressSearch canvasToBlob blobSize canvas format targetSize
      analysis qualityMode with
  | mk probes best finalMin =>
    rw [hsr] at hlen
    simp only at hlen
    cases best <;> simp only <;> omega

/-! ## C1: the binary search returns the best successful probe -/

/-- Shape of the probe trace: every probe encodes at the midpoint of its
interval, carries the encoder's blob, succeeds exactly when the size is
within `target * tolerance`, and runs only while the interval is wider than
the epsilon; the first probe sees the initial interval, and each later
probe's interval is the previous one with the floor raised (on success) or
the ceiling lowered (on failure). -/
lemma searchLoop_probe_facts {Canvas Format Blob : Type}
    (ct : Canvas → Format → ℚ → Blob) (bs : Blob → ℕ) (c : Canvas)
    (f : Format) (t : ℕ) (tol : ℚ) :
    ∀ (fuel : ℕ) (lo hi : ℚ) (best : Option Blob),
      (∀ p ∈ (searchLoop ct bs c f t tol fuel lo hi best).probes,
        p.q = (p.lo + p.hi) / 2 ∧ p.blob = ct c f p.q ∧
        (p.ok = true ↔ (bs p.blob : ℚ) ≤ (t : ℚ) * tol) ∧
        p.hi - p.lo > 0.002) ∧
      (∀ p ∈ (searchLoop ct bs c f t tol fuel lo hi best).probes.head?,
        p.lo = lo ∧ p.hi = hi) ∧
      (searchLoop ct bs c f t tol fuel lo hi best).probes.Chain'
        (fun p p' => (p.ok = true → p'.lo = p.q ∧ p'.hi = p.hi) ∧
          (p.ok = false → p'.lo = p.lo ∧ p'.hi = p.q)) := by
  intro fuel
  induction fuel with
  | zero =>
    intro lo hi best
    simp [searchLoop]
  | succ fuel ih =>
    intro lo hi best
    simp only [searchLoop]
    split_ifs with hcond hsize
    · obtain ⟨ih1, ih2, ih3⟩ := ih ((lo + hi) / 2) hi (some (ct c f ((lo + hi) / 2)))
      refine ⟨?_, ?_, ?_⟩
      · intro p hp
        rcases List.mem_cons.mp hp with rfl | hp
        · exact ⟨rfl, rfl, by simp [hsize], hcond⟩
        · exact ih1 p hp
      · intro p hp
        simp only [List.head?_cons, Option.mem_some_iff] at hp
        subst hp
        exact ⟨rfl, rfl⟩
      · rw [List.chain'_cons']
        refine ⟨fun p' hp' => ?_, ih3⟩
        obtain ⟨hlo, hhi⟩ := ih2 p' hp'
        exact ⟨fun _ => ⟨hlo, hhi⟩, fun hfalse => absurd hfalse (by simp)⟩
    · obtain ⟨ih1, ih2, ih3⟩ := ih lo ((lo + hi) / 2) best
      refine ⟨?_, ?_, ?_⟩
      · intro p hp
        rcases List.mem_cons.mp hp with rfl | hp
        · exact ⟨rfl, rfl, by simp [hsize], hcond⟩
        · exact ih1 p hp
      · intro p hp
        simp only [List.head?_cons, Option.mem_some_iff] at hp
        subst hp
        exact ⟨rfl, rfl⟩
      · rw [List.chain'_cons']
        refine ⟨fun p' hp' => ?_, ih3⟩
        obtain ⟨hlo, hhi⟩ := ih2 p' hp'
        exact ⟨fun htrue => absurd htrue (by simp), fun _ => ⟨hlo, hhi⟩⟩
    · simp

/-- The best-candidate invariant of the binary search: starting with no
candidate, the loop either fails every probe and keeps no candidate, or
ends holding the blob of the highest-quality successful probe; successful
probes always sit strictly above the floor, foundations for that maximum. -/
lemma searchLoop_best_spec {Canvas Format Blob : Type}
    (ct : Canvas → Format → ℚ → Blob) (bs : Blob → ℕ) (c : Canvas)
    (f : Format) (t : ℕ) (tol : ℚ) :
    ∀ (fuel : ℕ) (lo hi : ℚ) (best : Option Blob),
      (∀ p ∈ (searchLoop ct bs c f t tol fuel lo hi best).probes,
        lo ≤ p.lo ∧ p.lo < p.q) ∧
      lo ≤ (searchLoop ct bs c f t tol fuel lo hi best).finalMin ∧
      (best = none →
        ((searchLoop ct bs c f t tol fuel lo hi best).best = none ∧
          ∀ p ∈ (searchLoop ct bs c f t tol fuel lo hi best).probes, p.ok = false) ∨
        (∃ p, p ∈ (searchLoop ct bs c f t tol fuel lo hi best).probes ∧
          p.ok = true ∧
          (searchLoop ct bs c f t tol fuel lo hi best).best = some p.blob ∧
          ∀ p' ∈ (searchLoop ct bs c f t tol fuel lo hi best).probes,
            p'.ok = true → p'.q ≤ p.q)) ∧
      (∀ b₀, best = some b₀ →
        ((searchLoop ct bs c f t tol fuel lo hi best).best = some b₀ ∧
          ∀ p ∈ (searchLoop ct bs c f t tol fuel lo hi best).probes, p.ok = false) ∨
        (∃ p, p ∈ (searchLoop ct bs c f t tol fuel lo hi best).probes ∧
          p.ok = true ∧
          (searchLoop ct bs c f t tol fuel lo hi best).best = some p.blob ∧
          ∀ p' ∈ (searchLoop ct bs c f t tol fuel lo hi best).probes,
            p'.ok = true → p'.q ≤ p.q)) := by
  intro fuel
  induction fuel with
  | zero =>
    intro lo hi best
    refine ⟨by simp [searchLoop], by simp [searchLoop], ?_, ?_⟩
    · intro hb
      exact Or.inl ⟨by simp [searchLoop, hb], by simp [searchLoop]⟩
    · intro b₀ hb
      exact Or.inl ⟨by simp [searchLoop, hb], by simp [searchLoop]⟩
  | succ fuel ih =>
    intro lo hi best
    simp only [searchLoop]
    split_ifs with hcond hsize
    · -- successful probe at the midpoint
      obtain ⟨ih1, ih2, ih3, ih4⟩ :=
        ih ((lo + hi) / 2) hi (some (ct c f ((lo + hi) / 2)))
      have hmid : lo < (lo + hi) / 2 := by linarith
      have hcommon :
          ∃ p, p ∈ (⟨lo, hi, (lo + hi) / 2, ct c f ((lo + hi) / 2), true⟩ : Probe Blob) ::
              (searchLoop ct bs c f t tol fuel ((lo + hi) / 2) hi
                (some (ct c f ((lo + hi) / 2)))).probes ∧
            p.ok = true ∧
            (searchLoop ct bs c f t tol fuel ((lo + hi) / 2) hi
              (some (ct c f ((lo + hi) / 2)))).best = some p.blob ∧
            ∀ p' ∈ (⟨lo, hi, (lo + hi) / 2, ct c f ((lo + hi) / 2), true⟩ : Probe Blob) ::
                (searchLoop ct bs c f t tol fuel ((lo + hi) / 2) hi
                  (some (ct c f ((lo + hi) / 2)))).probes,
              p'.ok = true → p'.q ≤ p.q := by
        rcases ih4 (ct c f ((lo + hi) / 2)) rfl with ⟨hb, hfail⟩ | ⟨p, hp, hok, hb, hmax⟩
        · refine ⟨_, List.mem_cons_self _ _, rfl, hb, ?_⟩
          intro p' hp' hok'
          rcases List.mem_cons.mp hp' with rfl | hp'
          · exact le_refl _
          · exact absurd hok' (by simp [hfail p' hp'])
        · refine ⟨p, List.mem_cons_of_mem _ hp, hok, hb, ?_⟩
          intro p' hp' hok'
          rcases List.mem_cons.mp hp' with rfl | hp'
          · exact le_of_lt (lt_of_le_of_lt (ih1 p hp).1 (ih1 p hp).2)
          · exact hmax p' hp' hok'
      refine ⟨?_, ?_, ?_, ?_⟩
      · intro p hp
        rcases List.mem_cons.mp hp with rfl | hp
        · exact ⟨le_refl lo, hmid⟩
        · obtain ⟨h1, h2⟩ := ih1 p hp
          exact ⟨le_of_lt (lt_of_lt_of_le hmid h1), h2⟩
      · exact le_of_lt (lt_of_lt_of_le hmid ih2)
      · intro _
        exact Or.inr hcommon
      · intro b₀ _
        exact Or.inr hcommon
    · -- failing probe at the midpoint
      obtain ⟨ih1, ih2, ih3, ih4⟩ := ih lo ((lo + hi) / 2) best
      refine ⟨?_, ih2, ?_, ?_⟩
      · intro p hp
        rcases List.mem_cons.mp hp with rfl | hp
        · exact ⟨le_refl lo, by linarith⟩
        · exact ih1 p hp
      · intro hb
        rcases ih3 hb with ⟨hb', hfail⟩ | ⟨p, hp, hok, hb', hmax⟩
        · refine Or.inl ⟨hb', ?_⟩
          intro p hp
          rcases List.mem_cons.mp hp with rfl | hp
          · rfl
          · exact hfail p hp
        · refine Or.inr ⟨p, List.mem_cons_of_mem _ hp, hok, hb', ?_⟩
          intro p' hp' hok'
          rcases List.mem_cons.mp hp' with rfl | hp'
          · exact absurd hok' (by simp)
          · exact hmax p' hp' hok'
      · intro b₀ hb
        rcases ih4 b₀ hb with ⟨hb', hfail⟩ | ⟨p, hp, hok, hb', hmax⟩
        · refine Or.inl ⟨hb', ?_⟩
          intro p hp
          rcases List.mem_cons.mp hp with rfl | hp
          · rfl
          · exact hfail p hp
        · refine Or.inr ⟨p, List.mem_cons_of_mem _ hp, hok, hb', ?_⟩
          intro p' hp' hok'
          rcases List.mem_cons.mp hp' with rfl | hp'
          · exact absurd hok' (by simp)
          · exact hmax p' hp' hok'
    · refine ⟨by simp, le_refl lo, ?_, ?_⟩
      · intro hb
        exact Or.inl ⟨by simp [hb], by simp⟩
      · intro b₀ hb
        exact Or.inl ⟨by simp [hb], by simp⟩

/-- C1: `compress` performs a bounded binary search on quality.  Given the
loop state `r` it reaches: every probe encodes at the midpoint of its
current `[minQuality, maxQuality]` interval and succeeds exactly when its
size is at most `targetSize * tolerance`; a success raises the floor to the
probed quality and a failure lowers the ceiling to it; the returned blob is
the candidate of the highest-quality successful probe, and when no probe
succeeded the function returns one extra encode at the final `minQuality`. -/
theorem compress_binary_search_returns_best {Canvas Format Blob : Type}
    (canvasToBlob : Canvas → Format → ℚ → Blob) (blobSize : Blob → ℕ)
    (canvas : Canvas) (format : Format) (targetSize : ℕ) (analysis : Analysis)
    (qualityMode : CompressionQuality) (r : SearchResult Blob)
    (hr : compressSearch canvasToBlob blobSize canvas format targetSize
      analysis qualityMode = r) :
    (∀ p ∈ r.probes, p.q = (p.lo + p.hi) / 2 ∧
      p.blob = canvasToBlob canvas format p.q ∧
      (p.ok = true ↔ (blobSize p.blob : ℚ) ≤
        (targetSize : ℚ) * (getQualityAdjustment qualityMode).tolerance) ∧
      p.hi - p.lo > 0.002) ∧
    (∀ p ∈ r.probes.head?,
      p.lo = initialMinQuality analysis (getQualityAdjustment qualityMode) ∧
      p.hi = initialMaxQuality analysis (getQualityAdjustment qualityMode)) ∧
    r.probes.Chain' (fun p p' => (p.ok = true → p'.lo = p.q ∧ p'.hi = p.hi) ∧
      (p.ok = false → p'.lo = p.lo ∧ p'.hi = p.q)) ∧
    ((∃ p ∈ r.probes, p.ok = true) →
      ∃ p ∈ r.probes, p.ok = true ∧
        compress canvasToBlob blobSize canvas format targetSize analysis
          qualityMode = p.blob ∧
        ∀ p' ∈ r.probes, p'.ok = true → p'.q ≤ p.q) ∧
    ((∀ p ∈ r.probes, p.ok = false) →
      compress canvasToBlob blobSize canvas format targetSize analysis
        qualityMode = canvasToBlob canvas format r.finalMin) := by
  subst hr
  obtain ⟨f1, f2, f3⟩ := searchLoop_probe_facts canvasToBlob blobSize canvas
    format targetSize (getQualityAdjustment qualityMode).tolerance
    (getQualityAdjustment qualityMode).iterations
    (initialMinQuality analysis (getQualityAdjustment qualityMode))
    (initialMaxQuality analysis (getQualityAdjustment qualityMode)) none
  obtain ⟨g1, g2, g3, g4⟩ := searchLoop_best_spec canvasToBlob blobSize canvas
    format targetSize (getQualityAdjustment qualityMode).tolerance
    (getQualityAdjustment qualityMode).iterations
    (initialMinQuality analysis (getQualityAdjustment qualityMode))
    (initialMaxQuality analysis (getQualityAdjustment qualityMode)) none
  refine ⟨f1, f2, f3, ?_, ?_⟩
  · rintro ⟨p0, hp0, hok0⟩
    rcases g3 rfl with ⟨hb, hfail⟩ | ⟨p, hp, hok, hb, hmax⟩
    · exact absurd hok0 (by simp [hfail p0 hp0])
    · refine ⟨p, hp, hok, ?_, hmax⟩
      simp only [compress, compressSearch]
      rw [hb]
  · intro hfail
    rcases g3 rfl with ⟨hb, _⟩ | ⟨p, hp, hok, _, _⟩
    · simp only [compress, compressSearch]
      rw [hb]
    · exact absurd hok (by simp [hfail p hp])

/-- An encoder whose blobs always have size zero (every probe succeeds). -/
def encZero : Unit → Unit → ℚ → ℕ :=
  fun _ _ _ => 0

/-- An encoder whose blobs always exceed any reasonable target (every probe
fails). -/
def encBig : Unit → Unit → ℚ → ℕ :=
  fun _ _ _ => 1000000

/-- Witness for C1: with a base quality of `-0.036` and the `MAXIMUM`
profile the loop probes once at the midpoint `0.022`; under `encZero` that
probe succeeds and its blob is returned, under `encBig` it fails and the
fallback encodes at the final floor `0.02`. -/
theorem compress_binary_search_returns_best_witness :
    (∃ p ∈ (compressSearch encZero id () () 100 ⟨-0.036⟩
        CompressionQuality.maximum).probes, p.ok = true) ∧
    (∃ p ∈ (compressSearch encZero id () () 100 ⟨-0.036⟩
        CompressionQuality.maximum).probes, p.ok = true ∧
      compress encZero id () () 100 ⟨-0.036⟩ CompressionQuality.maximum =
        p.blob ∧
      ∀ p' ∈ (compressSearch encZero id () () 100 ⟨-0.036⟩
          CompressionQuality.maximum).probes, p'.ok = true → p'.q ≤ p.q) ∧
    (∀ p ∈ (compressSearch encBig id () () 100 ⟨-0.036⟩
        CompressionQuality.maximum).probes, p.ok = false) ∧
    compress encBig id () () 100 ⟨-0.036⟩ CompressionQuality.maximum =
      encBig () () (compressSearch encBig id () () 100 ⟨-0.036⟩
        CompressionQuality.maximum).finalMin := by
  have e1 : initialMinQuality ⟨-0.036⟩
      (getQualityAdjustment CompressionQuality.maximum) = 0.02 := by
    simp only [initialMinQuality, getQualityAdjustment]
    norm_num [max_def]
  have e2 : initialMaxQuality ⟨-0.036⟩
      (getQualityAdjustment CompressionQuality.maximum) = 0.024 := by
    simp only [initialMaxQuality, getQualityAdjustment]
    norm_num [min_def]
  have hz : compressSearch encZero id () () 100 ⟨-0.036⟩
      CompressionQuality.maximum =
      ⟨[⟨0.02, 0.024, 0.022, 0, true⟩], some 0, 0.022⟩ := by
    simp only [compressSearch]
    rw [e1, e2, show (getQualityAdjustment CompressionQuality.maximum).tolerance
        = 1.15 from rfl,
      show (getQualityAdjustment CompressionQuality.maximum).iterations = 10
        from rfl]
    rw [show (10 : ℕ) = 9 + 1 from rfl, searchLoop.eq_2]
    rw [if_pos (show (0.024 : ℚ) - 0.02 > 0.002 by norm_num)]
    rw [if_pos (show ((id (encZero () () ((0.02 + 0.024) / 2)) : ℕ) : ℚ) ≤
      ((100 : ℕ) : ℚ) * 1.15 by norm_num [encZero])]
    rw [show (9 : ℕ) = 8 + 1 from rfl, searchLoop.eq_2]
    rw [if_neg (show ¬ ((0.024 : ℚ) - (0.02 + 0.024) / 2 > 0.002) by norm_num)]
    norm_num [encZero]
  have hbg : compressSearch encBig id () () 100 ⟨-0.036⟩
      CompressionQuality.maximum =
      ⟨[⟨0.02, 0.024, 0.022, 1000000, false⟩], none, 0.02⟩ := by
    simp only [compressSearch]
    rw [e1, e2, show (getQualityAdjustment CompressionQuality.maximum).tolerance
        = 1.15 from rfl,
      show (getQualityAdjustment CompressionQuality.maximum).iterations = 10
        from rfl]
    rw [show (10 : ℕ) = 9 + 1 from rfl, searchLoop.eq_2]
    rw [if_pos (show (0.024 : ℚ) - 0.02 > 0.002 by norm_num)]
    rw [if_neg (show ¬ (((id (encBig () () ((0.02 + 0.024) / 2)) : ℕ) : ℚ) ≤
      ((100 : ℕ) : ℚ) * 1.15) by norm_num [encBig])]
    rw [show (9 : ℕ) = 8 + 1 from rfl, searchLoop.eq_2]
    rw [if_neg (show ¬ ((0.02 + 0.024 : ℚ) / 2 - 0.02 > 0.002) by norm_num)]
    norm_num [encBig]
  have hex : ∃ p ∈ (compressSearch encZero id () () 100 ⟨-0.036⟩
      CompressionQuality.maximum).probes, p.ok = true := by
    rw [hz]
    exact ⟨_, List.mem_cons_self _ _, rfl⟩
  have hfail : ∀ p ∈ (compressSearch encBig id () () 100 ⟨-0.036⟩
      CompressionQuality.maximum).probes, p.ok = false := by
    rw [hbg]
    intro p hp
    rcases List.mem_cons.mp hp with rfl | hp
    · rfl
    · simp at hp
  exact ⟨hex,
    (compress_binary_search_returns_best encZero id () () 100 ⟨-0.036⟩
      CompressionQuality.maximum _ rfl).2.2.2.1 hex,
    hfail,
    (compress_binary_search_returns_best encBig id () () 100 ⟨-0.036⟩
      CompressionQuality.maximum _ rfl).2.2.2.2 hfail⟩

/-! ## C5: the multi-scale fallback is first-fit with a terminal encode -/

/-- First-fit behavior of the `advancedOptimize` loop over any scale list:
if every candidate exceeds the target the fallback encode at scale 0.32 and
quality 0.02 is returned (and only then is the last-resort flag set); the
first candidate at or under the target is returned as soon as it exists;
the traced run agrees with the plain run and tries a prefix of the list. -/
lemma advancedOptimizeGo_spec {Canvas Format Blob : Type}
    (ct : Canvas → Format → ℚ → Blob) (bs : Blob → ℕ)
    (sc : Canvas → ℚ → Canvas) (canvas : Canvas) (format : Format) (t : ℕ)
    (analysis : Analysis) :
    ∀ L : List ℚ,
      ((∀ s ∈ L, t < bs (scaleCandidate ct bs sc canvas format t analysis s)) →
        advancedOptimizeGo ct bs sc canvas format t analysis L =
          ct (sc canvas 0.32) format 0.02) ∧
      (∀ (i : ℕ) (hi : i < L.length),
        bs (scaleCandidate ct bs sc canvas format t analysis (L.get ⟨i, hi⟩)) ≤ t →
        (∀ (j : ℕ) (hj : j < i),
          t < bs (scaleCandidate ct bs sc canvas format t analysis
            (L.get ⟨j, lt_trans hj hi⟩))) →
        advancedOptimizeGo ct bs sc canvas format t analysis L =
          scaleCandidate ct bs sc canvas format t analysis (L.get ⟨i, hi⟩)) ∧
      ((advancedOptimizeTraced ct bs sc canvas format t analysis L).1 =
        advancedOptimizeGo ct bs sc canvas format t analysis L) ∧
      ((advancedOptimizeTraced ct bs sc canvas format t analysis L).2.2 = true ↔
        ∀ s ∈ L, t < bs (scaleCandidate ct bs sc canvas format t analysis s)) ∧
      (∃ n, (advancedOptimizeTraced ct bs sc canvas format t analysis L).2.1 =
        L.take n) := by
  intro L
  induction L with
  | nil =>
    refine ⟨fun _ => rfl, ?_, rfl, by simp [advancedOptimizeTraced], ⟨0, rfl⟩⟩
    intro i hi
    exact absurd hi (by simp)
  | cons s rest ih =>
    obtain ⟨ih1, ih2, ih3, ih4, ih5⟩ := ih
    refine ⟨?_, ?_, ?_, ?_, ?_⟩
    · intro hall
      have hs : t < bs (scaleCandidate ct bs sc canvas format t analysis s) :=
        hall s (List.mem_cons_self s rest)
      simp only [advancedOptimizeGo]
      rw [if_neg (by omega)]
      exact ih1 fun s' hs' => hall s' (List.mem_cons_of_mem s hs')
    · intro i hi hsucc hprev
      cases i with
      | zero =>
        simp only [List.get] at hsucc ⊢
        simp only [advancedOptimizeGo]
        rw [if_pos hsucc]
      | succ i' =>
        have h0 : t < bs (scaleCandidate ct bs sc canvas format t analysis s) := by
          simpa using hprev 0 (Nat.succ_pos i')
        simp only [advancedOptimizeGo]
        rw [if_neg (by omega)]
        have hi' : i' < rest.length := by simpa using hi
        have hmain := ih2 i' hi' (by simpa using hsucc) fun j hj => by
          simpa using hprev (j + 1) (Nat.succ_lt_succ hj)
        simpa using hmain
    · simp only [advancedOptimizeGo, advancedOptimizeTraced]
      split_ifs with hs
      · rfl
      · exact ih3
    · simp only [advancedOptimizeTraced]
      split_ifs with hs
      · simp only [List.forall_mem_cons]
        constructor
        · intro hfalse
          exact absurd hfalse (by simp)
        · intro hall
          exact absurd hs (by omega)
      · rw [ih4, List.forall_mem_cons]
        exact ⟨fun hall => ⟨by omega, hall⟩, fun hall => hall.2⟩
    · simp only [advancedOptimizeTraced]
      split_ifs with hs
      · exact ⟨1, rfl⟩
      · obtain ⟨n, hn⟩ := ih5
        exact ⟨n + 1, by simp [hn]⟩

/-- C5: `advancedOptimize` walks the fixed descending scale ladder in order
and returns the first recompressed blob at or under `targetSize`; exactly
when every ratio fails it performs the single last-resort encode at scale
0.32 and quality 0.02 and returns it even if it exceeds the target; it
tries only a prefix of the fixed ladder. -/
theorem advanced_optimize_first_fit {Canvas Format Blob : Type}
    (canvasToBlob : Canvas → Format → ℚ → Blob) (blobSize : Blob → ℕ)
    (scaleCanvas : Canvas → ℚ → Canvas) (canvas : Canvas) (format : Format)
    (targetSize : ℕ) (analysis : Analysis) :
    ((∀ s ∈ advancedOptimizeScales,
        targetSize < blobSize (scaleCandidate canvasToBlob blobSize scaleCanvas
          canvas format targetSize analysis s)) →
      advancedOptimize canvasToBlob blobSize scaleCanvas canvas format
        targetSize analysis = canvasToBlob (scaleCanvas canvas 0.32) format 0.02) ∧
    (∀ (i : ℕ) (hi : i < advancedOptimizeScales.length),
      blobSize (scaleCandidate canvasToBlob blobSize scaleCanvas canvas format
        targetSize analysis (advancedOptimizeScales.get ⟨i, hi⟩)) ≤ targetSize →
      (∀ (j : ℕ) (hj : j < i),
        targetSize < blobSize (scaleCandidate canvasToBlob blobSize scaleCanvas
          canvas format targetSize analysis
          (advancedOptimizeScales.get ⟨j, lt_trans hj hi⟩))) →
      advancedOptimize canvasToBlob blobSize scaleCanvas canvas format
        targetSize analysis =
        scaleCandidate canvasToBlob blobSize scaleCanvas canvas format
          targetSize analysis (advancedOptimizeScales.get ⟨i, hi⟩)) ∧
    ((advancedOptimizeTraced canvasToBlob blobSize scaleCanvas canvas format
        targetSize analysis advancedOptimizeScales).1 =
      advancedOptimize canvasToBlob blobSize scaleCanvas canvas format
        targetSize analysis) ∧
    ((advancedOptimizeTraced canvasToBlob blobSize scaleCanvas canvas format
        targetSize analysis advancedOptimizeScales).2.2 = true ↔
      ∀ s ∈ advancedOptimizeScales,
        targetSize < blobSize (scaleCandidate canvasToBlob blobSize scaleCanvas
          canvas format targetSize analysis s)) ∧
    (∃ n, (advancedOptimizeTraced canvasToBlob blobSize scaleCanvas canvas
        format targetSize analysis advancedOptimizeScales).2.1 =
      advancedOptimizeScales.take n) :=
  advancedOptimizeGo_spec canvasToBlob blobSize scaleCanvas canvas format
    targetSize analysis advancedOptimizeScales

/-- An encoder whose blobs always have size 7 (every scale fails a target
of 3). -/
def enc7 : Unit → Unit → ℚ → ℕ :=
  fun _ _ _ => 7

/-- A trivial canvas scaler for the one-point canvas type. -/
def scaleUnit : Unit → ℚ → Unit :=
  fun _ _ => ()

/-- Witness for C5: with a constant size-7 encoder and target 3 every scale
fails, the last-resort flag is set, and the fallback encode at scale 0.32
and quality 0.02 is returned. -/
theorem advanced_optimize_first_fit_witness :
    (∀ s ∈ advancedOptimizeScales,
      3 < id (scaleCandidate enc7 id scaleUnit () () 3 ⟨0⟩ s)) ∧
    advancedOptimize enc7 id scaleUnit () () 3 ⟨0⟩ =
      enc7 (scaleUnit () 0.32) () 0.02 ∧
    (advancedOptimizeTraced enc7 id scaleUnit () () 3 ⟨0⟩
      advancedOptimizeScales).2.2 = true := by
  have eMin : initialMinQuality ⟨0⟩
      (getQualityAdjustment CompressionQuality.extreme) = 0.02 := by
    simp only [initialMinQuality, getQualityAdjustment]
    norm_num [max_def]
  have eMax : initialMaxQuality ⟨0⟩
      (getQualityAdjustment CompressionQuality.extreme) = -0.15 := by
    simp only [initialMaxQuality, getQualityAdjustment]
    norm_num [min_def]
  have hcs : compressSearch enc7 id () () 3 ⟨0⟩ CompressionQuality.extreme =
      ⟨[], none, 0.02⟩ := by
    simp only [compressSearch]
    rw [eMin, eMax,
      show (getQualityAdjustment CompressionQuality.extreme).tolerance = 0.88
        from rfl,
      show (getQualityAdjustment CompressionQuality.extreme).iterations = 24
        from rfl]
    rw [show (24 : ℕ) = 23 + 1 from rfl, searchLoop.eq_2]
    rw [if_neg (show ¬ ((-0.15 : ℚ) - 0.02 > 0.002) by norm_num)]
  have hc7 : compress enc7 id () () 3 ⟨0⟩ CompressionQuality.extreme = 7 := by
    simp only [compress]
    rw [hcs]
    rfl
  have hall : ∀ s ∈ advancedOptimizeScales,
      3 < id (scaleCandidate enc7 id scaleUnit () () 3 ⟨0⟩ s) := by
    intro s _
    simp only [scaleCandidate, scaleUnit]
    rw [hc7]
    norm_num
  exact ⟨hall,
    (advanced_optimize_first_fit enc7 id scaleUnit () () 3 ⟨0⟩).1 hall,
    (advanced_optimize_first_fit enc7 id scaleUnit () () 3 ⟨0⟩).2.2.2.1.mpr hall⟩

/-! ## C8: color quantization is idempotent -/

/-- `Math.round x` is at most `x + 1/2`. -/
lemma jsRound_le (x : ℚ) : (jsRound x : ℚ) ≤ x + 1/2 :=
  Int.floor_le _

/-- `Math.round x` exceeds `x - 1/2`. -/
lemma lt_jsRound (x : ℚ) : x - 1/2 < (jsRound x : ℚ) := by
  have h := Int.lt_floor_add_one (x + 1/2)
  unfold jsRound
  push_cast at h ⊢
  linarith

/-- `Math.round` of a nonnegative rational is nonnegative. -/
lemma jsRound_nonneg (x : ℚ) (h : 0 ≤ x) : 0 ≤ jsRound x := by
  unfold jsRound
  exact Int.le_floor.mpr (by push_cast; linarith)

/-- `Math.round x` is the unique integer within the half-open half-width
window around `x`. -/
lemma jsRound_eq (x : ℚ) (n : ℤ) (h1 : (n : ℚ) ≤ x + 1/2)
    (h2 : x + 1/2 < (n : ℚ) + 1) : jsRound x = n := by
  unfold jsRound
  rw [Int.floor_eq_iff]
  exact ⟨h1, by linarith⟩

/-- Ties-to-even rounding is never below the floor. -/
lemma roundTiesEven_ge_floor (x : ℚ) : ⌊x⌋ ≤ roundTiesEven x := by
  unfold roundTiesEven
  split_ifs <;> omega

/-- Ties-to-even rounding is nonnegative on nonnegative input. -/
lemma roundTiesEven_nonneg (x : ℚ) (h : 0 ≤ x) : 0 ≤ roundTiesEven x :=
  le_trans (Int.le_floor.mpr (by push_cast; linarith)) (roundTiesEven_ge_floor x)

/-- Ties-to-even rounding is within a half of its argument. -/
lemma roundTiesEven_sub_abs_le (x : ℚ) : |(roundTiesEven x : ℚ) - x| ≤ 1/2 := by
  unfold roundTiesEven
  have hf1 : (⌊x⌋ : ℚ) ≤ x := Int.floor_le x
  have hf2 : x < ⌊x⌋ + 1 := Int.lt_floor_add_one x
  split_ifs with h1 h2 h3 <;> rw [abs_le] <;> push_cast <;>
    constructor <;> linarith

/-- Ties-to-even rounding agrees with any integer strictly within a half. -/
lemma roundTiesEven_eq_of_abs_lt (x : ℚ) (n : ℤ) (h : |x - (n : ℚ)| < 1/2) :
    roundTiesEven x = n := by
  rw [abs_lt] at h
  obtain ⟨h1, h2⟩ := h
  unfold roundTiesEven
  rcases le_or_lt (n : ℚ) x with hx | hx
  · have hf : ⌊x⌋ = n := by
      rw [Int.floor_eq_iff]
      exact ⟨hx, by linarith⟩
    rw [hf]
    rw [if_neg (by linarith), if_pos (by linarith)]
  · have hf : ⌊x⌋ = n - 1 := by
      rw [Int.floor_eq_iff]
      constructor <;> push_cast <;> linarith
    rw [hf]
    rw [if_pos (by push_cast; linarith)]
    omega

/-- `ToUint8Clamp` on a nonpositive number. -/
lemma toUint8Clamp_of_nonpos {x : ℚ} (h : x ≤ 0) : toUint8Clamp x = 0 := by
  unfold toUint8Clamp
  rw [if_pos h]

/-- `ToUint8Clamp` on a number at or above 255. -/
lemma toUint8Clamp_of_ge {x : ℚ} (h : 255 ≤ x) : toUint8Clamp x = 255 := by
  unfold toUint8Clamp
  rw [if_neg (by linarith), if_pos h]

/-- `ToUint8Clamp` strictly between the clamp bounds rounds ties to even. -/
lemma toUint8Clamp_of_between {x : ℚ} (h1 : 0 < x) (h2 : x < 255) :
    toUint8Clamp x = (roundTiesEven x).toNat := by
  unfold toUint8Clamp
  rw [if_neg (by linarith), if_neg (by linarith)]

/-- `ToUint8Clamp` fixes the integers of `[0, 255]`. -/
lemma toUint8Clamp_intCast (m : ℤ) (h0 : 0 ≤ m) (h255 : m ≤ 255) :
    toUint8Clamp (m : ℚ) = m.toNat := by
  rcases eq_or_lt_of_le h0 with rfl | hpos
  · rw [toUint8Clamp_of_nonpos (by norm_num)]
    rfl
  · rcases eq_or_lt_of_le h255 with rfl | hlt
    · rw [toUint8Clamp_of_ge (by norm_num)]
      rfl
    · rw [toUint8Clamp_of_between (by exact_mod_cast hpos) (by exact_mod_cast hlt),
        roundTiesEven_eq_of_abs_lt _ m (by rw [abs_lt]; constructor <;> linarith)]

/-- With a positive step of size at most one, every integer byte value is a
fixed point of one quantization round. -/
lemma quantize_small_step_fix (step : ℚ) (hstep : 0 < step) (hstep1 : step ≤ 1)
    (m : ℤ) (hm0 : 0 ≤ m) (hm255 : m ≤ 255) :
    toUint8Clamp ((jsRound ((m : ℚ) / step) : ℚ) * step) = m.toNat := by
  rcases eq_or_lt_of_le hstep1 with heq | hlt
  · rw [heq, div_one]
    have : jsRound (m : ℚ) = m := by
      unfold jsRound
      rw [Int.floor_eq_iff]
      constructor <;> linarith
    rw [this, mul_one]
    exact toUint8Clamp_intCast m hm0 hm255
  · have h1 : (jsRound ((m : ℚ) / step) : ℚ) ≤ (m : ℚ) / step + 1/2 :=
      jsRound_le _
    have h2 : (m : ℚ) / step - 1/2 < (jsRound ((m : ℚ) / step) : ℚ) :=
      lt_jsRound _
    have hub : (jsRound ((m : ℚ) / step) : ℚ) * step ≤ (m : ℚ) + step / 2 := by
      have := mul_le_mul_of_nonneg_right h1 hstep.le
      calc (jsRound ((m : ℚ) / step) : ℚ) * step
          ≤ ((m : ℚ) / step + 1/2) * step := this
        _ = (m : ℚ) + step / 2 := by field_simp; ring
    have hlb : (m : ℚ) - step / 2 < (jsRound ((m : ℚ) / step) : ℚ) * step := by
      have := mul_lt_mul_of_pos_right h2 hstep
      calc (m : ℚ) - step / 2 = ((m : ℚ) / step - 1/2) * step := by
            field_simp; ring
        _ < _ := this
    have hub' : (jsRound ((m : ℚ) / step) : ℚ) * step < (m : ℚ) + 1/2 := by
      linarith
    have hlb' : (m : ℚ) - 1/2 < (jsRound ((m : ℚ) / step) : ℚ) * step := by
      linarith
    rcases le_or_lt ((jsRound ((m : ℚ) / step) : ℚ) * step) 0 with hq2 | hq2pos
    · have hmq : (m : ℚ) < 1 := by linarith
      have hm00 : m = 0 := by
        have : m < 1 := by exact_mod_cast hmq
        omega
      rw [toUint8Clamp_of_nonpos hq2, hm00]
      rfl
    · rcases le_or_lt 255 ((jsRound ((m : ℚ) / step) : ℚ) * step) with hq255 | hqlt
      · have hmq : (254 : ℚ) < (m : ℚ) := by linarith
        have hm2 : m = 255 := by
          have : (254 : ℤ) < m := by exact_mod_cast hmq
          omega
        rw [toUint8Clamp_of_ge hq255, hm2]
        rfl
      · rw [toUint8Clamp_of_between hq2pos hqlt,
          roundTiesEven_eq_of_abs_lt _ m
            (by rw [abs_lt]; constructor <;> linarith)]

/-- One quantization round at any positive step is idempotent on byte
values: requantizing the stored result reproduces it. -/
lemma quantizeChannelStep_idem (step : ℚ) (hstep : 0 < step) (c : ℕ)
    (hc : c ≤ 255) :
    quantizeChannelStep step (quantizeChannelStep step c) =
      quantizeChannelStep step c := by
  have hk0 : 0 ≤ jsRound ((c : ℚ) / step) :=
    jsRound_nonneg _ (div_nonneg (Nat.cast_nonneg c) hstep.le)
  have hq0 : 0 ≤ (jsRound ((c : ℚ) / step) : ℚ) * step :=
    mul_nonneg (by exact_mod_cast hk0) hstep.le
  have hqub : (jsRound ((c : ℚ) / step) : ℚ) * step ≤ (c : ℚ) + step / 2 := by
    have := mul_le_mul_of_nonneg_right (jsRound_le ((c : ℚ) / step)) hstep.le
    calc (jsRound ((c : ℚ) / step) : ℚ) * step
        ≤ ((c : ℚ) / step + 1/2) * step := this
      _ = (c : ℚ) + step / 2 := by field_simp; ring
  unfold quantizeChannelStep
  rcases le_or_lt ((jsRound ((c : ℚ) / step) : ℚ) * step) 0 with hq | hqpos
  · rw [toUint8Clamp_of_nonpos hq]
    rw [show ((0 : ℕ) : ℚ) / step = 0 by simp]
    rw [show jsRound 0 = 0 by unfold jsRound; norm_num]
    rw [Int.cast_zero, zero_mul, toUint8Clamp_of_nonpos le_rfl]
  · rcases le_or_lt 255 ((jsRound ((c : ℚ) / step) : ℚ) * step) with hq255 | hqlt
    · rw [toUint8Clamp_of_ge hq255]
      have hka : (jsRound ((c : ℚ) / step) : ℚ) ≤ 255 / step + 1/2 := by
        have hcq : (c : ℚ) ≤ 255 := by exact_mod_cast hc
        have h1 : (jsRound ((c : ℚ) / step) : ℚ) * step - step / 2 ≤ 255 := by
          linarith
        have h2 : ((jsRound ((c : ℚ) / step) : ℚ) - 1/2) * step ≤ 255 := by
          calc ((jsRound ((c : ℚ) / step) : ℚ) - 1/2) * step
              = (jsRound ((c : ℚ) / step) : ℚ) * step - step / 2 := by ring
            _ ≤ 255 := h1
        have := (le_div_iff₀ hstep).mpr h2
        linarith
      have hkb : (255 : ℚ) / step ≤ (jsRound ((c : ℚ) / step) : ℚ) := by
        rw [div_le_iff₀ hstep]
        linarith
      have hk' : jsRound ((255 : ℚ) / step) = jsRound ((c : ℚ) / step) :=
        jsRound_eq _ _ (by linarith) (by linarith)
      rw [show ((255 : ℕ) : ℚ) = (255 : ℚ) by norm_num, hk']
      exact toUint8Clamp_of_ge hq255
    · rw [toUint8Clamp_of_between hqpos hqlt]
      have hm0 : 0 ≤ roundTiesEven ((jsRound ((c : ℚ) / step) : ℚ) * step) :=
        roundTiesEven_nonneg _ hqpos.le
      have habs := roundTiesEven_sub_abs_le ((jsRound ((c : ℚ) / step) : ℚ) * step)
      rw [abs_le] at habs
      have hm255 : roundTiesEven ((jsRound ((c : ℚ) / step) : ℚ) * step) ≤ 255 := by
        have h1 : (roundTiesEven ((jsRound ((c : ℚ) / step) : ℚ) * step) : ℚ) <
            256 := by linarith [habs.2]
        have : roundTiesEven ((jsRound ((c : ℚ) / step) : ℚ) * step) < 256 := by
          exact_mod_cast h1
        omega
      have hcast : (((roundTiesEven ((jsRound ((c : ℚ) / step) : ℚ) * step)).toNat :
          ℕ) : ℚ) = (roundTiesEven ((jsRound ((c : ℚ) / step) : ℚ) * step) : ℚ) := by
        exact_mod_cast congrArg Int.cast (Int.toNat_of_nonneg hm0)
      rw [hcast]
      rcases le_or_lt step 1 with hstep1 | hstep1
      · exact quantize_small_step_fix step hstep hstep1 _ hm0 hm255
      · have hk' : jsRound ((roundTiesEven ((jsRound ((c : ℚ) / step) : ℚ) * step) :
            ℚ) / step) = jsRound ((c : ℚ) / step) := by
          have hdivle : (roundTiesEven ((jsRound ((c : ℚ) / step) : ℚ) * step) : ℚ) /
              step ≤ (jsRound ((c : ℚ) / step) : ℚ) + 1 / (2 * step) := by
            rw [div_le_iff₀ hstep]
            have : (roundTiesEven ((jsRound ((c : ℚ) / step) : ℚ) * step) : ℚ) ≤
                (jsRound ((c : ℚ) / step) : ℚ) * step + 1/2 := by
              linarith [habs.2]
            calc (roundTiesEven ((jsRound ((c : ℚ) / step) : ℚ) * step) : ℚ)
                ≤ (jsRound ((c : ℚ) / step) : ℚ) * step + 1/2 := this
              _ = ((jsRound ((c : ℚ) / step) : ℚ) + 1 / (2 * step)) * step := by
                  field_simp
                  ring
          have hdivge : (jsRound ((c : ℚ) / step) : ℚ) - 1 / (2 * step) ≤
              (roundTiesEven ((jsRound ((c : ℚ) / step) : ℚ) * step) : ℚ) / step := by
            rw [le_div_iff₀ hstep]
            have : (jsRound ((c : ℚ) / step) : ℚ) * step - 1/2 ≤
                (roundTiesEven ((jsRound ((c : ℚ) / step) : ℚ) * step) : ℚ) := by
              linarith [habs.1]
            calc ((jsRound ((c : ℚ) / step) : ℚ) - 1 / (2 * step)) * step
                = (jsRound ((c : ℚ) / step) : ℚ) * step - 1/2 := by
                  field_simp
                  ring
              _ ≤ _ := this
          have hhalf : 1 / (2 * step) < 1/2 := by
            rw [div_lt_div_iff₀ (by linarith) (by norm_num)]
            linarith
          exact jsRound_eq _ _ (by linarith) (by linarith)
        rw [hk']
        rw [toUint8Clamp_of_between hqpos hqlt]

/-- Quantization with `levels = 0` produces a `NaN`-like zero step: every
channel maps to 0, so the map is idempotent there as well. -/
lemma quantizeChannel_zero (c : ℕ) : quantizeChannel 0 c = 0 := by
  unfold quantizeChannel quantizeChannelStep
  rw [show ((0 : ℕ) : ℚ) = 0 from rfl, div_zero, mul_zero,
    toUint8Clamp_of_nonpos le_rfl]

/-- One channel of `applyColorQuantization` is idempotent on byte values. -/
lemma quantizeChannel_idem (levels c : ℕ) (hc : c ≤ 255) :
    quantizeChannel levels (quantizeChannel levels c) =
      quantizeChannel levels c := by
  rcases Nat.eq_zero_or_pos levels with rfl | hl
  · rw [quantizeChannel_zero, quantizeChannel_zero]
  · have hstep : 0 < (256 : ℚ) / (levels : ℚ) :=
      div_pos (by norm_num) (by exact_mod_cast hl)
    exact quantizeChannelStep_idem _ hstep c hc

/-- C8: color quantization is idempotent — applying
`applyColorQuantization` a second time with the same `levels` yields a
byte-for-byte identical buffer. -/
theorem color_quantization_idempotent (levels : ℕ) (data : List Pixel)
    (hdata : ∀ p ∈ data, p.r ≤ 255 ∧ p.g ≤ 255 ∧ p.b ≤ 255) :
    applyColorQuantization levels (applyColorQuantization levels data) =
      applyColorQuantization levels data := by
  unfold applyColorQuantization
  rw [List.map_map]
  refine List.map_congr_left fun p hp => ?_
  obtain ⟨hr, hg, hb⟩ := hdata p hp
  simp only [Function.comp, quantizePixel]
  rw [quantizeChannel_idem levels p.r hr, quantizeChannel_idem levels p.g hg,
    quantizeChannel_idem levels p.b hb]

/-- Witness for C8: a concrete two-pixel byte buffer quantized twice at the
default `levels = 220`. -/
theorem color_quantization_idempotent_witness :
    (∀ p ∈ [(⟨10, 200, 255, 7⟩ : Pixel), ⟨0, 128, 33, 0⟩],
      p.r ≤ 255 ∧ p.g ≤ 255 ∧ p.b ≤ 255) ∧
    applyColorQuantization 220
        (applyColorQuantization 220 [(⟨10, 200, 255, 7⟩ : Pixel), ⟨0, 128, 33, 0⟩]) =
      applyColorQuantization 220 [(⟨10, 200, 255, 7⟩ : Pixel), ⟨0, 128, 33, 0⟩] :=
  ⟨by decide, color_quantization_idempotent 220 _ (by decide)⟩

end UltraCompress
